import Mathlib

/-!
Verification of core algorithms of the golemon parser generator
(a Go port of the LEMON parser generator, single source file lemongo.go).

The development shallowly embeds the functions that the claims are about:

* the acttab module (`acttab_action`, `acttab_insert`) that packs sparse
  action rows into the shared linear `aAction` array;
* `resolve_conflict`, the precedence-driven conflict resolver;
* the numeric action-encoding boundaries computed at the top of
  `ReportTable` and `compute_action`;
* the control flow of `main` (exit codes and which pipeline stages run);
* `Symbolcmpp` and the symbol-numbering pass of `main`;
* `SetUnion`, whose Go-map iteration order is the only source of
  nondeterminism in the core pipeline.

Go `int` values are modelled as `Int`.  Go slices that are only ever
accessed through tracked fill counters (`aAction` with `nAction` /
`nActionAlloc`) are modelled as total functions `Int → _` together with
those counters; growth ("append + zero-fill") becomes a pointwise
redefinition on the newly allocated range, exactly mirroring the source's
initialization loop.  Go maps `map[int]bool` are modelled as `Int → Bool`
for value lookup and as explicit enumeration lists `List (Int × Bool)`
where the source ranges over the map, so that iteration-order dependence
can be stated and refuted.
-/

namespace Golemon
/-- One entry of the `yy_action` table under construction: a
(lookahead, action) pair.  Mirrors `type lookahead_action struct`. -/
structure lookahead_action where
  lookahead : Int
  action : Int
deriving DecidableEq, Repr

/-- Pointwise array update, used to model writes `p.aAction[k] = v`. -/
def updFn (f : Int → lookahead_action) (k : Int) (v : lookahead_action) :
    Int → lookahead_action :=
  fun x => if x = k then v else f x

/-- The state of the `yy_action` table under construction.  Mirrors
`type acttab struct`.  `aLookahead` holds the used prefix (the first
`nLookahead` slots) of the Go slice; its allocation slack
(`nLookaheadAlloc`) is irrelevant to behaviour and not modelled. -/
structure acttab where
  nAction : Int
  nActionAlloc : Int
  aAction : Int → lookahead_action
  aLookahead : List lookahead_action
  mnLookahead : Int
  mnAction : Int
  mxLookahead : Int
  nterminal : Int
  nsymbol : Int

/-- `acttab_alloc`: a fresh acttab; all other fields are Go zero values. -/
def acttab_alloc (nsymbol nterminal : Int) : acttab where
  nAction := 0
  nActionAlloc := 0
  aAction := fun _ => ⟨0, 0⟩
  aLookahead := []
  mnLookahead := 0
  mnAction := 0
  mxLookahead := 0
  nterminal := nterminal
  nsymbol := nsymbol

/-- `acttab_action`: add one (lookahead, action) pair to the current
transaction set, maintaining the min/max bookkeeping. -/
def acttab_action (p : acttab) (lookahead action : Int) : acttab :=
  if p.aLookahead.length = 0 then
    { p with
      mxLookahead := lookahead
      mnLookahead := lookahead
      mnAction := action
      aLookahead := p.aLookahead ++ [⟨lookahead, action⟩] }
  else
    { p with
      mxLookahead := if p.mxLookahead < lookahead then lookahead else p.mxLookahead
      mnLookahead := if lookahead < p.mnLookahead then lookahead else p.mnLookahead
      mnAction := if lookahead < p.mnLookahead then action else p.mnAction
      aLookahead := p.aLookahead ++ [⟨lookahead, action⟩] }

/-- Whether `acttab_insert` grows the allocation this round:
`p.nAction+n >= p.nActionAlloc` with `n = p.nsymbol + 1`. -/
def insertGrow (p : acttab) : Bool :=
  decide (p.nActionAlloc ≤ p.nAction + (p.nsymbol + 1))

/-- The allocation size after the (possible) growth step of
`acttab_insert`: `p.nAction + n + p.nActionAlloc + 20` on growth. -/
def insertAlloc (p : acttab) : Int :=
  if insertGrow p then p.nAction + (p.nsymbol + 1) + p.nActionAlloc + 20
  else p.nActionAlloc

/-- The `aAction` array after the growth step: newly allocated slots
(indices in `[nActionAlloc, insertAlloc p)`) are initialized to
`(-1, -1)`, mirroring the source's zero-fill loop. -/
def insertAAct (p : acttab) : Int → lookahead_action :=
  if insertGrow p then
    fun j => if p.nActionAlloc ≤ j ∧ j < insertAlloc p then ⟨-1, -1⟩ else p.aAction j
  else p.aAction

/-- The count computed by the "no stray alias" loop of the duplicate
scan: the number of used slots `j < nAction` whose lookahead equals
`j + mnLookahead - i`. -/
def lookaheadCountOf (aAct : Int → lookahead_action) (nAction : Int) (mn i : Int) : Nat :=
  (List.range nAction.toNat).countP (fun j : Nat =>
    decide (0 ≤ (aAct (j : Int)).lookahead ∧ (aAct (j : Int)).lookahead = (j : Int) + mn - i))

/-- The body of the duplicate scan of `acttab_insert` at candidate
index `i`: the slot matches the row's minimum entry, every transaction
entry matches in-bounds, and no lookahead outside the transaction
aliases the offset. -/
def dedupOK (aAct : Int → lookahead_action) (nAction : Int)
    (row : List lookahead_action) (mn mnAct : Int) (i : Int) : Bool :=
  decide ((aAct i).lookahead = mn) && decide ((aAct i).action = mnAct) &&
  row.all (fun e =>
    let k := e.lookahead - mn + i
    decide (0 ≤ k ∧ k < nAction) && decide (aAct k = e)) &&
  decide (lookaheadCountOf aAct nAction mn i = row.length)

/-- The descending candidate list `hi, hi-1, …, lo` of the duplicate
scan (`for i = p.nAction - 1; i >= end; i--`). -/
def downFrom (hi lo : Int) : List Int :=
  (List.range (hi + 1 - lo).toNat).map (fun t : Nat => hi - (t : Int))

/-- The ascending candidate list `lo, lo+1, …, hiEx-1` of the hole
scan (`for ; i < p.nActionAlloc-p.mxLookahead; i++`). -/
def upFrom (lo hiEx : Int) : List Int :=
  (List.range (hiEx - lo).toNat).map (fun t : Nat => lo + (t : Int))

/-- The body of the hole scan of `acttab_insert` at candidate index
`i`: slot `i` is empty, every transaction entry lands on a nonnegative
empty slot, and no existing used slot aliases the offset. -/
def holeOK (aAct : Int → lookahead_action) (nAction : Int)
    (row : List lookahead_action) (mn : Int) (i : Int) : Bool :=
  decide ((aAct i).lookahead < 0) &&
  row.all (fun e =>
    let k := e.lookahead - mn + i
    decide (0 ≤ k) && decide ((aAct k).lookahead < 0)) &&
  (List.range nAction.toNat).all (fun j : Nat =>
    decide (¬ (aAct (j : Int)).lookahead = (j : Int) + mn - i))

/-- The index where the hole scan leaves `i`: the first fitting hole in
`[start, nActionAlloc - mxLookahead)`, or the loop's exhaustion value
(`max start (nActionAlloc - mxLookahead)`) when no hole fits. -/
def holeScanIndex (aAct : Int → lookahead_action) (nAction nActionAlloc : Int)
    (row : List lookahead_action) (mn mx start : Int) : Int :=
  match (upFrom start (nActionAlloc - mx)).find? (holeOK aAct nAction row mn) with
  | some i => i
  | none => start + ((nActionAlloc - mx) - start).toNat

/-- The index `i` at which `acttab_insert` installs the transaction:
the duplicate scan's match if one exists, otherwise the hole scan's
result.  Both scans are bounded below by `mnLookahead` when
`makeItSafe` is true and by 0 otherwise. -/
def insertIndex (p : acttab) (makeItSafe : Bool) : Int :=
  let aAct' := insertAAct p
  let lb : Int := if makeItSafe then p.mnLookahead else 0
  match (downFrom (p.nAction - 1) lb).find?
      (dedupOK aAct' p.nAction p.aLookahead p.mnLookahead p.mnAction) with
  | some i => i
  | none => holeScanIndex aAct' p.nAction (insertAlloc p) p.aLookahead
      p.mnLookahead p.mxLookahead lb

/-- The installation loop of `acttab_insert`: write each transaction
entry at `e.lookahead - mn + i`, advancing `nAction` past any write
beyond it. -/
def installRow (aAct : Int → lookahead_action) (nAction : Int) (mn i : Int) :
    List lookahead_action → (Int → lookahead_action) × Int
  | [] => (aAct, nAction)
  | e :: rest =>
      let k := e.lookahead - mn + i
      installRow (updFn aAct k e) (if nAction ≤ k then k + 1 else nAction) mn i rest

/-- `acttab_insert`: add the transaction set built by `acttab_action`
calls into the action table and return the new state together with the
returned offset `i - mnLookahead`.  `none` models the panic on an
empty transaction set (`p.nLookahead <= 0`). -/
def acttab_insert (p : acttab) (makeItSafe : Bool) : Option (acttab × Int) :=
  if p.aLookahead.length = 0 then none
  else
    let i := insertIndex p makeItSafe
    let inst := installRow (insertAAct p) p.nAction p.mnLookahead i p.aLookahead
    let nAct3 : Int :=
      if makeItSafe ∧ inst.2 ≤ i + p.nterminal then i + p.nterminal + 1 else inst.2
    some
      ({ p with
          aAction := inst.1
          nAction := nAct3
          nActionAlloc := insertAlloc p
          aLookahead := [] },
        i - p.mnLookahead)

/-- The result of a non-panicking `acttab_insert`, defaulted (the
default is never reached when the transaction set is nonempty). -/
def insertRes (p : acttab) (makeItSafe : Bool) : acttab × Int :=
  (acttab_insert p makeItSafe).getD (p, 0)

/-- Concrete terminal row used by the C1 and C2 witnesses: two actions
on lookaheads 1 and 3. -/
def c1row : acttab := acttab_action (acttab_action (acttab_alloc 6 4) 1 7) 3 9

/-- The last pending entry of a transaction set carrying a given
lookahead: because the install loop's slot `e.lookahead - mn + i` is
determined by the lookahead alone and the loop writes the entries in
order, this is the value a slot holds after installation (last write
wins). -/
def lastEntryFor (row : List lookahead_action) (t : Int) : Option lookahead_action :=
  row.reverse.find? (fun e => e.lookahead == t)

/-- A transaction set in which the same lookahead is added twice with
different actions, as happens when an `ERROR` action (from the
equal-precedence Nonassoc branch of `resolve_conflict`) and a
surviving `REDUCE` action on the same lookahead both reach the
`acttab_action` loop of `ReportTable`. -/
def dupLookaheadRow : acttab := acttab_action (acttab_action (acttab_alloc 6 4) 3 10) 3 20

/-- Concrete nonterminal row whose single lookahead is 5: packing it
into a fresh table yields the negative offset `-5`. -/
def nonterminalNegRow : acttab := acttab_action (acttab_alloc 10 8) 5 777

/-- Action kinds, mirroring `type e_action int` and its constants. -/
inductive e_action where
  | SHIFT
  | ACCEPT
  | REDUCE
  | ERROR
  | SSCONFLICT
  | SRCONFLICT
  | RRCONFLICT
  | SH_RESOLVED
  | RD_RESOLVED
  | NOT_USED
  | SHIFTREDUCE
deriving DecidableEq, Repr

/-- Associativity, mirroring `type e_assoc int` (`LEFT`, `RIGHT`,
`NONE`, `UNK`). -/
inductive e_assoc where
  | LEFT
  | RIGHT
  | NONE
  | UNK
deriving DecidableEq, Repr

/-- The symbol fields read by `resolve_conflict` and
`compute_action`: dense index, precedence (−1 means undefined) and
associativity. -/
structure symbolC where
  index : Int
  prec : Int
  assoc : e_assoc
deriving DecidableEq, Repr

/-- The rule fields read by `resolve_conflict` and `compute_action`:
final rule number and optional precedence symbol. -/
structure ruleC where
  iRule : Int
  precsym : Option symbolC
deriving DecidableEq, Repr

/-- The state field read by `compute_action`. -/
structure stateC where
  statenum : Int
deriving DecidableEq, Repr

/-- An action as read by `resolve_conflict` and `compute_action`: its
kind, its lookahead symbol `sp`, and the two arms of the
`stateOrRuleUnion` payload `x`. -/
structure actionC where
  typ : e_action
  sp : symbolC
  x_stp : stateC
  x_rp : ruleC
deriving DecidableEq, Repr

/-- `resolve_conflict`: resolve a conflict between two actions on the
same lookahead, returning the updated kinds of `apx` and `apy` and the
number of unresolved conflicts counted (0 or 1).  `none` models an
`assert` failure aborting the process (the leading
`assert(apx.sp == apy.sp)`, the implicit
`assert(spx.prec == spy.prec && spx.assoc == NONE)` in the equal
precedence case, and the final catch-all assert). -/
def resolve_conflict (apx apy : actionC) : Option (e_action × e_action × Int) :=
  if apx.sp ≠ apy.sp then none
  else
    let step1 : e_action × e_action × Int :=
      if apx.typ = .SHIFT ∧ apy.typ = .SHIFT then (apx.typ, .SSCONFLICT, 1)
      else (apx.typ, apy.typ, 0)
    let tx0 := step1.1
    let ty0 := step1.2.1
    let e0 := step1.2.2
    if tx0 = .SHIFT ∧ ty0 = .REDUCE then
      let spx := apx.sp
      match apy.x_rp.precsym with
      | none => some (tx0, .SRCONFLICT, e0 + 1)
      | some spy =>
          if spx.prec < 0 ∨ spy.prec < 0 then some (tx0, .SRCONFLICT, e0 + 1)
          else if spy.prec < spx.prec then some (tx0, .RD_RESOLVED, e0)
          else if spx.prec < spy.prec then some (.SH_RESOLVED, ty0, e0)
          else if spx.assoc = .RIGHT then some (tx0, .RD_RESOLVED, e0)
          else if spx.assoc = .LEFT then some (.SH_RESOLVED, ty0, e0)
          else if spx.assoc = .NONE then some (.ERROR, ty0, e0)
          else none
    else if tx0 = .REDUCE ∧ ty0 = .REDUCE then
      match apx.x_rp.precsym, apy.x_rp.precsym with
      | none, _ => some (tx0, .RRCONFLICT, e0 + 1)
      | some _, none => some (tx0, .RRCONFLICT, e0 + 1)
      | some spx, some spy =>
          if spx.prec < 0 ∨ spy.prec < 0 ∨ spx.prec = spy.prec then
            some (tx0, .RRCONFLICT, e0 + 1)
          else if spy.prec < spx.prec then some (tx0, .RD_RESOLVED, e0)
          else some (.RD_RESOLVED, ty0, e0)
    else
      if tx0 = .SH_RESOLVED ∨ tx0 = .RD_RESOLVED ∨ tx0 = .SSCONFLICT ∨
          tx0 = .SRCONFLICT ∨ tx0 = .RRCONFLICT ∨ ty0 = .SH_RESOLVED ∨
          ty0 = .RD_RESOLVED ∨ ty0 = .SSCONFLICT ∨ ty0 = .SRCONFLICT ∨
          ty0 = .RRCONFLICT then
        some (tx0, ty0, e0)
      else none

/-- A reduce/reduce pair in which the first rule has a precedence
symbol whose precedence is undefined (−1) and the second has
precedence 2.  The claim's truth table predicts that the
lower-precedence rule is dropped (`RD_RESOLVED`, no conflict counted);
the code instead marks the second action `RRCONFLICT` and counts one
conflict, because a negative precedence is treated as missing. -/
def rrNegPrecX : actionC :=
  { typ := .REDUCE, sp := ⟨4, -1, .UNK⟩, x_stp := ⟨0⟩,
    x_rp := ⟨0, some ⟨9, -1, .UNK⟩⟩ }

/-- The second action of the reduce/reduce counterexample pair. -/
def rrNegPrecY : actionC :=
  { typ := .REDUCE, sp := ⟨4, -1, .UNK⟩, x_stp := ⟨0⟩,
    x_rp := ⟨1, some ⟨7, 2, .LEFT⟩⟩ }

/-- A shift on a precedence-5 symbol conflicting with a reduce whose
rule has precedence 3: the shift wins and the reduce is dropped. -/
def srShiftWinsX : actionC :=
  { typ := .SHIFT, sp := ⟨2, 5, .LEFT⟩, x_stp := ⟨3⟩, x_rp := ⟨0, none⟩ }

/-- The reduce action of the shift-wins witness pair. -/
def srShiftWinsY : actionC :=
  { typ := .REDUCE, sp := ⟨2, 5, .LEFT⟩, x_stp := ⟨0⟩,
    x_rp := ⟨1, some ⟨6, 3, .LEFT⟩⟩ }

/-- The `lemon` fields involved in the action-encoding boundaries and
`compute_action`.  `errsymIndex` is `none` when `lemp.errsym == nil`
and otherwise holds `lemp.errsym.index`. -/
structure lemonT where
  nstate : Int
  nxstate : Int
  nrule : Int
  nterminal : Int
  errsymIndex : Option Int
  minShiftReduce : Int := 0
  errAction : Int := 0
  accAction : Int := 0
  noAction : Int := 0
  minReduce : Int := 0
  maxAction : Int := 0
deriving DecidableEq, Repr

/-- The boundary computation at the top of `ReportTable`:
`minShiftReduce = nstate`, then `errAction`, `accAction`, `noAction`,
`minReduce`, `maxAction` in sequence. -/
def reportTableBoundaries (l : lemonT) : lemonT :=
  let msr := l.nstate
  let err := msr + l.nrule
  let acc := err + 1
  let no := acc + 1
  let mnr := no + 1
  { l with
    minShiftReduce := msr
    errAction := err
    accAction := acc
    noAction := no
    minReduce := mnr
    maxAction := mnr + l.nrule }

/-- `compute_action`: the integer encoding of an action in the emitted
table; `-1` means no table entry is generated. -/
def compute_action (lemp : lemonT) (ap : actionC) : Int :=
  match ap.typ with
  | .SHIFT => ap.x_stp.statenum
  | .SHIFTREDUCE =>
      if lemp.nterminal ≤ ap.sp.index ∧ lemp.errsymIndex ≠ some ap.sp.index then
        lemp.minReduce + ap.x_rp.iRule
      else lemp.minShiftReduce + ap.x_rp.iRule
  | .REDUCE => lemp.minReduce + ap.x_rp.iRule
  | .ERROR => lemp.errAction
  | .ACCEPT => lemp.accAction
  | _ => -1

/-- A grammar in which two trailing autoReduce states were trimmed:
`nstate = 6` but `nxstate = 4`. -/
def trimmedLemon : lemonT :=
  { nstate := 6, nxstate := 4, nrule := 3, nterminal := 2, errsymIndex := none }

/-- A concrete reduce action used by the C4 witness. -/
def c4reduce : actionC :=
  { typ := .REDUCE, sp := ⟨1, -1, .UNK⟩, x_stp := ⟨0⟩, x_rp := ⟨2, none⟩ }

/-- The command-line flags of `main` that steer the compile path:
`-E` (print preprocessed), `-g` (reprint grammar only), `-c` (disable
compression), `-r` (disable resort), `-q` (suppress report). -/
structure mainFlags where
  printPP : Bool
  rpflag : Bool
  compressOff : Bool
  noResort : Bool
  quiet : Bool
deriving DecidableEq, Repr

/-- The data `main`'s control flow branches on: the error count
accumulated by `Parse`, the parsed rule count, the additional errors
accumulated by the stages after `Parse`, and the unresolved conflict
count. -/
structure runOutcome where
  parseErrcnt : Nat
  nrule : Nat
  pipelineErrcnt : Nat
  nconflict : Nat
deriving DecidableEq, Repr

/-- The exit code of `main` on the compile path, mirroring its exits
in order: `os.Exit(lem.errorcnt)` right after `Parse` when `-E` was
given or any parse errors accumulated, `os.Exit(1)` on an empty
grammar, and the final `os.Exit(1)` when the error count or the
conflict count is nonzero (falling off `main` exits 0). -/
def mainExitCode (f : mainFlags) (d : runOutcome) : Nat :=
  if f.printPP ∨ 0 < d.parseErrcnt then d.parseErrcnt
  else if d.nrule = 0 then 1
  else if 0 < d.pipelineErrcnt ∨ 0 < d.nconflict then 1
  else 0

/-- A run whose parse stage accumulated two errors exits with code 2,
not 1. -/
def twoParseErrors : runOutcome :=
  { parseErrcnt := 2, nrule := 5, pipelineErrcnt := 0, nconflict := 0 }

/-- The all-false flag set (the default compile path). -/
def defaultFlags : mainFlags :=
  { printPP := false, rpflag := false, compressOff := false,
    noResort := false, quiet := false }

/-- The pipeline stages of `main` (lines 1424-1528): `Parse`,
`FindRulePrecedences`, `FindFirstSets`, `FindStates`, `FindLinks`,
`FindFollowSets`, `FindActions`, `CompressTables`, `ResortStates`,
`ReportOutput`, `ReportTable`. -/
inductive stage where
  | SParse
  | SPrec
  | SFirst
  | SStates
  | SLinks
  | SFollows
  | SActions
  | SCompress
  | SResort
  | SReportOut
  | SReportTab
deriving DecidableEq, Repr

/-- The stages `main` actually runs, in order: `Parse` always; nothing
more when `-E` was given or parse errors were accumulated (the
`os.Exit(lem.errorcnt)` right after `Parse`), when the grammar is
empty, or when `-g` requests a grammar reprint; otherwise all analysis
stages run unconditionally — no error check sits between them — with
`CompressTables`, `ResortStates` and `ReportOutput` gated only by
their flags. -/
def stagesRun (f : mainFlags) (d : runOutcome) : List stage :=
  [.SParse] ++
  (if f.printPP ∨ 0 < d.parseErrcnt then []
   else if d.nrule = 0 then []
   else if f.rpflag then []
   else
     [.SPrec, .SFirst, .SStates, .SLinks, .SFollows, .SActions] ++
     (if ¬ f.compressOff then [.SCompress] else []) ++
     (if ¬ f.noResort then [.SResort] else []) ++
     (if ¬ f.quiet then [.SReportOut] else []) ++
     [.SReportTab])

/-- A run with one parse error and a nonempty grammar. -/
def oneParseError : runOutcome :=
  { parseErrcnt := 1, nrule := 5, pipelineErrcnt := 0, nconflict := 0 }

/-- Pointwise update of a `map[int]bool` modelled as its value
function (absent keys read as `false`, as in Go). -/
def updB (f : Int → Bool) (k : Int) (v : Bool) : Int → Bool :=
  fun x => if x = k then v else f x

/-- The loop body of `SetUnion` folded over an explicit enumeration of
the second map (Go ranges over `s2` in unspecified order): entries
with value `false` are skipped; a key absent from `s1` is inserted and
`progress` is set. -/
def SetUnionAux : ((Int → Bool) × Bool) → List (Int × Bool) → (Int → Bool) × Bool
  | acc, [] => acc
  | acc, kv :: rest =>
      if kv.2 = false then SetUnionAux acc rest
      else if acc.1 kv.1 then SetUnionAux acc rest
      else SetUnionAux (updB acc.1 kv.1 true, true) rest

/-- `SetUnion(s1, s2)`: the first map's final contents and the
`progress` flag, given an enumeration order `enum2` of the second
map's key/value pairs. -/
def SetUnionGo (s1 : Int → Bool) (enum2 : List (Int × Bool)) : (Int → Bool) × Bool :=
  SetUnionAux (s1, false) enum2

/-- The reduce-action emission loop of `FindActions` reads a follow
set only through `SetFind` probes at `j = 0, 1, …, nterminal-1`, so
the emitted lookahead row is this list. -/
def followSetRow (fws : Int → Bool) (nterminal : Nat) : List Int :=
  (List.range nterminal).filterMap
    (fun j : Nat => if fws (j : Int) then some ((j : Int)) else none)

/-- Two enumerations of the same two-element map. -/
def enumA : List (Int × Bool) := [(1, true), (2, true)]

/-- The other enumeration order of the same map. -/
def enumB : List (Int × Bool) := [(2, true), (1, true)]

/-- Symbol kinds, mirroring `TERMINAL`, `NONTERMINAL`,
`MULTITERMINAL` of `type symbol_type int`. -/
inductive symtype where
  | TERMINAL
  | NONTERMINAL
  | MULTITERMINAL
deriving DecidableEq, Repr

/-- The symbol fields read by `Symbolcmpp` and the numbering pass of
`main`: name, kind, and the (re)assigned dense index. -/
structure symS where
  name : String
  typ : symtype
  index : Int
deriving DecidableEq, Repr

/-- The name of the end-of-input terminal pre-interned by `main`. -/
def dollarName : String := "$"

/-- The name of the synthetic default-lookahead symbol interned by
`main` just after parsing. -/
def defaultName : String := "\x7bdefault\x7d"

/-- `firstRuneIsUpper`: whether the first rune of a string is upper
case.  `Char.isUpper` matches Go's `unicode.IsUpper` on the ASCII
identifiers the grammar tokenizer produces. -/
def firstRuneIsUpper (s : String) : Bool :=
  match s.data with
  | [] => false
  | c :: _ => c.isUpper

/-- The kind `Symbol_new` infers for a fresh symbol from the first
character of its name: uppercase means terminal. -/
def symbolNewType (x : String) : symtype :=
  if firstRuneIsUpper x then .TERMINAL else .NONTERMINAL

/-- Go's byte test `a.name[0] > 'Z'` (for ASCII first characters). -/
def firstCharGtZ (s : String) : Bool :=
  match s.data with
  | [] => false
  | c :: _ => decide ('Z' < c)

/-- The sort class computed inside `Symbolcmpp`: 3 for
multiterminals, 2 when the name's first byte is beyond `'Z'`
(lowercase names and `{default}`), 1 otherwise. -/
def symClassOf (a : symS) : Int :=
  if a.typ = .MULTITERMINAL then 3
  else if a.name ≠ "" ∧ firstCharGtZ a.name = true then 2
  else 1

/-- `Symbolcmpp`: compare two symbols for the registry sort — by
class, then by the previously assigned index. -/
def Symbolcmpp (a b : symS) : Int :=
  if symClassOf a = symClassOf b then a.index - b.index
  else symClassOf a - symClassOf b

/-- The ordering used to model `sort.Sort(symbolSorter(...))`.  The
comparator is a total order whenever indices are distinct (which the
preceding index-assignment pass guarantees), so the sorted permutation
is unique and `List.mergeSort` computes exactly what the source's
unstable sort does. -/
def symLe (a b : symS) : Bool := decide (Symbolcmpp a b ≤ 0)

/-- The index-assignment loop `for i { lem.symbols[i].index = i }`. -/
def assignIdx : Int → List symS → List symS
  | _, [] => []
  | i, s :: rest => { s with index := i } :: assignIdx (i + 1) rest

/-- The symbol-numbering pass of `main`: assign indices in intern
order, sort with `Symbolcmpp`, and assign dense indices again. -/
def sortSymbols (L : List symS) : List symS :=
  assignIdx 0 (List.mergeSort (assignIdx 0 L) symLe)

/-- The loop `for lem.symbols[i-1].typ == MULTITERMINAL { i-- }`:
the number of trailing multiterminals of the sorted array. -/
def trailingMulti (L : List symS) : Nat :=
  (L.reverse.takeWhile (fun s => decide (s.typ = .MULTITERMINAL))).length

/-- `lem.nsymbol = i - 1` after the trim loop: the index of the
`{default}` symbol in the sorted array. -/
def mainNsymbol (L : List symS) : Nat :=
  (L.length - trailingMulti (sortSymbols L)) - 1

/-- `lem.nterminal`: the scan `for i = 1; firstRuneIsUpper(...); i++`
over the sorted array. -/
def mainNterminal (L : List symS) : Nat :=
  1 + (((sortSymbols L).drop 1).takeWhile (fun s => firstRuneIsUpper s.name)).length

/-- Whether a string starts with an ASCII letter; the grammar
tokenizer only interns such identifiers (besides the two specials). -/
def asciiLetterFirst (s : String) : Bool :=
  match s.data with
  | [] => false
  | c :: _ => c.isUpper || c.isLower

/-- The intern-order symbol list that `main` numbers and sorts: `$`
first (interned before parsing), then the grammar's symbols, then
`{default}` last (interned just after parsing). -/
def registryList (dollar : symS) (mid : List symS) (dflt : symS) : List symS :=
  dollar :: (mid ++ [dflt])

/-- What `Symbol_new` guarantees about every non-multiterminal symbol
of the registry besides the two specials: an ASCII-letter initial
(the tokenizer interns only identifiers) and the kind inferred from
its case.  A multiterminal's entry places it in sort class 3 whatever
its name, so nothing is assumed about it. -/
def midSymbolOK (s : symS) : Prop :=
  ¬ s.typ = .MULTITERMINAL →
    asciiLetterFirst s.name = true ∧ s.typ = symbolNewType s.name

/-- The pre-interned end-of-input symbol for the C7 witness. -/
def c7dollar : symS := { name := dollarName, typ := .NONTERMINAL, index := 0 }

/-- A small grammar's interned symbols for the C7 witness. -/
def c7mid : List symS :=
  [{ name := "expr", typ := .NONTERMINAL, index := 0 },
   { name := "PLUS", typ := .TERMINAL, index := 0 }]

/-- The synthetic default symbol for the C7 witness. -/
def c7dflt : symS := { name := defaultName, typ := .NONTERMINAL, index := 0 }

theorem downFrom_mem {hi lo i : Int} (h : i ∈ downFrom hi lo) : lo ≤ i ∧ i ≤ hi := by
  simp only [downFrom, List.mem_map, List.mem_range] at h
  rcases h with ⟨t, ht, rfl⟩
  omega

theorem upFrom_mem {lo hiEx i : Int} (h : i ∈ upFrom lo hiEx) : lo ≤ i ∧ i < hiEx := by
  simp only [upFrom, List.mem_map, List.mem_range] at h
  rcases h with ⟨t, ht, rfl⟩
  omega

theorem holeScanIndex_ge (aAct : Int → lookahead_action) (nAction nActionAlloc : Int)
    (row : List lookahead_action) (mn mx start : Int) :
    start ≤ holeScanIndex aAct nAction nActionAlloc row mn mx start := by
  unfold holeScanIndex
  cases hf : (upFrom start (nActionAlloc - mx)).find? (holeOK aAct nAction row mn) with
  | none => simp only []; omega
  | some i =>
      have := upFrom_mem (List.mem_of_find?_eq_some hf)
      simpa using this.1

theorem insertIndex_ge (p : acttab) (makeItSafe : Bool) :
    (if makeItSafe then p.mnLookahead else 0) ≤ insertIndex p makeItSafe := by
  unfold insertIndex
  cases hf : (downFrom (p.nAction - 1) (if makeItSafe then p.mnLookahead else 0)).find?
      (dedupOK (insertAAct p) p.nAction p.aLookahead p.mnLookahead p.mnAction) with
  | none =>
      simp only [hf]
      exact holeScanIndex_ge _ _ _ _ _ _ _
  | some i =>
      simp only [hf]
      exact (downFrom_mem (List.mem_of_find?_eq_some hf)).1

theorem installRow_fst_of_notin (mn i : Int) (x : Int) :
    ∀ (row : List lookahead_action) (aAct : Int → lookahead_action) (nAction : Int),
      (∀ e ∈ row, e.lookahead - mn + i ≠ x) →
      (installRow aAct nAction mn i row).1 x = aAct x := by
  intro row
  induction row with
  | nil => intro aAct nAction _; rfl
  | cons e rest ih =>
      intro aAct nAction h
      have hx : e.lookahead - mn + i ≠ x := h e (List.mem_cons_self _ _)
      have hrest : ∀ e' ∈ rest, e'.lookahead - mn + i ≠ x :=
        fun e' he' => h e' (List.mem_cons_of_mem _ he')
      have hx' : ¬ x = e.lookahead - mn + i := fun hh => hx hh.symm
      simp only [installRow]
      rw [ih _ _ hrest]
      simp [updFn, hx']

theorem installRow_fst_get (mn i : Int) :
    ∀ (row : List lookahead_action) (aAct : Int → lookahead_action) (nAction : Int),
      (row.map lookahead_action.lookahead).Nodup →
      ∀ e ∈ row, (installRow aAct nAction mn i row).1 (e.lookahead - mn + i) = e := by
  intro row
  induction row with
  | nil => intro aAct nAction _ e he; exact absurd he (List.not_mem_nil e)
  | cons e0 rest ih =>
      intro aAct nAction hnodup e he
      have hn0 : e0.lookahead ∉ rest.map lookahead_action.lookahead :=
        (List.nodup_cons.mp (by simpa using hnodup)).1
      rcases List.mem_cons.mp he with rfl | hmem
      · unfold installRow
        have hrest : ∀ e' ∈ rest, e'.lookahead - mn + i ≠ e.lookahead - mn + i := by
          intro e' he' hEq
          have hl : e'.lookahead = e.lookahead := by omega
          exact hn0 (hl ▸ List.mem_map_of_mem lookahead_action.lookahead he')
        rw [installRow_fst_of_notin mn i _ rest _ _ hrest]
        simp [updFn]
      · unfold installRow
        exact ih _ _ (List.nodup_cons.mp (by simpa using hnodup)).2 e hmem

theorem acttab_action_aLookahead (p : acttab) (t a : Int) :
    (acttab_action p t a).aLookahead = p.aLookahead ++ [⟨t, a⟩] := by
  unfold acttab_action
  split <;> rfl

/-- C9.  Implicit precondition of `acttab_insert`: it panics exactly
when the pending transaction set is empty, and after any
`acttab_action` call (as guaranteed by the caller's `nAction > 0`
guard in `ReportTable`) the panic branch is unreachable. -/
theorem C9_insert_panics_iff_empty_row :
    (∀ (p : acttab) (makeItSafe : Bool),
        acttab_insert p makeItSafe = none ↔ p.aLookahead = []) ∧
    (∀ (p : acttab) (t a : Int) (makeItSafe : Bool),
        acttab_insert (acttab_action p t a) makeItSafe ≠ none) := by
  have key : ∀ (p : acttab) (m : Bool), acttab_insert p m = none ↔ p.aLookahead = [] := by
    intro p m
    unfold acttab_insert
    constructor
    · intro h
      by_cases hl : p.aLookahead.length = 0
      · exact List.length_eq_zero.mp hl
      · simp [hl] at h
    · intro h
      simp [h]
  refine ⟨key, ?_⟩
  intro p t a m h
  have := (key _ m).mp h
  rw [acttab_action_aLookahead] at this
  simpa using congrArg List.length this

theorem insertRes_eq (p : acttab) (m : Bool) (h : p.aLookahead ≠ []) :
    insertRes p m =
      ({ p with
          aAction :=
            (installRow (insertAAct p) p.nAction p.mnLookahead (insertIndex p m) p.aLookahead).1
          nAction :=
            if m ∧ (installRow (insertAAct p) p.nAction p.mnLookahead (insertIndex p m)
                p.aLookahead).2 ≤ insertIndex p m + p.nterminal then
              insertIndex p m + p.nterminal + 1
            else
              (installRow (insertAAct p) p.nAction p.mnLookahead (insertIndex p m) p.aLookahead).2
          nActionAlloc := insertAlloc p
          aLookahead := [] },
        insertIndex p m - p.mnLookahead) := by
  have hl : ¬ p.aLookahead.length = 0 := fun hh => h (List.length_eq_zero.mp hh)
  unfold insertRes acttab_insert
  simp [hl]

theorem installRow_fst_slot (mn i : Int) :
    ∀ (row : List lookahead_action) (aAct : Int → lookahead_action) (nAction : Int) (t : Int),
      (installRow aAct nAction mn i row).1 (t - mn + i) =
        (lastEntryFor row t).getD (aAct (t - mn + i)) := by
  intro row
  induction row with
  | nil => intro aAct nAction t; simp [installRow, lastEntryFor]
  | cons e0 rest ih =>
      intro aAct nAction t
      simp only [installRow]
      rw [ih]
      have hrev : (e0 :: rest).reverse = rest.reverse ++ [e0] := by simp
      unfold lastEntryFor
      rw [hrev, List.find?_append]
      cases hfind : rest.reverse.find? (fun e => e.lookahead == t) with
      | some x => simp [lastEntryFor, hfind]
      | none =>
          by_cases ht : e0.lookahead = t
          · have hk : t - mn + i = e0.lookahead - mn + i := by omega
            simp [lastEntryFor, hfind, updFn, hk, ht]
          · have hk : ¬ t - mn + i = e0.lookahead - mn + i := by omega
            have htb : (e0.lookahead == t) = false := by simpa using ht
            simp [lastEntryFor, hfind, updFn, hk, htb]

theorem C1_offset_pack_counterexample :
    (⟨3, 10⟩ : lookahead_action) ∈ dupLookaheadRow.aLookahead ∧
    (insertRes dupLookaheadRow true).1.aAction
      ((insertRes dupLookaheadRow true).2 + 3) = ⟨3, 20⟩ ∧
    ¬ (insertRes dupLookaheadRow true).1.aAction
      ((insertRes dupLookaheadRow true).2 + 3) = ⟨3, 10⟩ := by
  refine ⟨by decide, by decide, by decide⟩

/-- C1 (amended).  Offset-pack install correctness: for every row
inserted by `acttab_insert` with returned offset `o`, the slot
`aAction[o + t]` of every pending lookahead `t` ends up holding the
last pending entry with lookahead `t` — which is `(t, a)` itself for
every entry `(t, a)` whose lookahead is not repeated in the row, and
in particular for every entry when the caller adds each lookahead
once.  (A lookahead can be repeated: the equal-precedence Nonassoc
branch of `resolve_conflict` leaves an `ERROR` and a `REDUCE` action
on the same lookahead, both encoded nonnegative, so `ReportTable` then
feeds that lookahead twice and the earlier entry is overwritten.) -/
theorem C1_offset_pack_last_write (p : acttab) (makeItSafe : Bool)
    (hne : p.aLookahead ≠ []) :
    (∀ e ∈ p.aLookahead,
      (insertRes p makeItSafe).1.aAction ((insertRes p makeItSafe).2 + e.lookahead) =
        (lastEntryFor p.aLookahead e.lookahead).getD e) ∧
    ((p.aLookahead.map lookahead_action.lookahead).Nodup →
      ∀ e ∈ p.aLookahead,
        (insertRes p makeItSafe).1.aAction ((insertRes p makeItSafe).2 + e.lookahead) = e) := by
  constructor
  · intro e he
    rw [insertRes_eq p makeItSafe hne]
    dsimp only
    have harith : insertIndex p makeItSafe - p.mnLookahead + e.lookahead =
        e.lookahead - p.mnLookahead + insertIndex p makeItSafe := by ring
    rw [harith, installRow_fst_slot]
    cases hfind : lastEntryFor p.aLookahead e.lookahead with
    | some x => simp [hfind]
    | none =>
        exfalso
        unfold lastEntryFor at hfind
        have hall := List.find?_eq_none.mp hfind e (List.mem_reverse.mpr he)
        simp at hall
  · intro hnodup e he
    rw [insertRes_eq p makeItSafe hne]
    dsimp only
    have harith : insertIndex p makeItSafe - p.mnLookahead + e.lookahead =
        e.lookahead - p.mnLookahead + insertIndex p makeItSafe := by ring
    rw [harith]
    exact installRow_fst_get p.mnLookahead (insertIndex p makeItSafe) p.aLookahead
      (insertAAct p) p.nAction hnodup e he

theorem C1_offset_pack_last_write_witness :
    (insertRes c1row true).1.aAction ((insertRes c1row true).2 + 3) = ⟨3, 9⟩ :=
  (C1_offset_pack_last_write c1row true (by decide)).2 (by decide) ⟨3, 9⟩ (by decide)

/-- C2.  Terminal-row safety: for a row inserted with `makeItSafe =
true` whose minimum lookahead is nonnegative, the returned offset is
nonnegative, the fill `nAction` is extended to at least
`i + nterminal + 1` (that is, `offset + mnLookahead + nterminal + 1`),
and hence `offset + t` is in bounds (`0 ≤ offset + t < nAction`) for
every terminal index `t < nterminal`. -/
theorem C2_terminal_row_safety (p : acttab)
    (hne : p.aLookahead ≠ []) (hmn : 0 ≤ p.mnLookahead) :
    0 ≤ (insertRes p true).2 ∧
    (insertRes p true).2 + p.mnLookahead + p.nterminal + 1 ≤ (insertRes p true).1.nAction ∧
    (∀ t : Int, 0 ≤ t → t < p.nterminal →
      0 ≤ (insertRes p true).2 + t ∧
        (insertRes p true).2 + t < (insertRes p true).1.nAction) := by
  have hge : p.mnLookahead ≤ insertIndex p true := by
    have := insertIndex_ge p true
    simpa using this
  rw [insertRes_eq p true hne]
  dsimp only
  split
  · refine ⟨by omega, by omega, ?_⟩
    intro t ht1 ht2
    exact ⟨by omega, by omega⟩
  · next hcond =>
      have hc2 : ¬ (installRow (insertAAct p) p.nAction p.mnLookahead (insertIndex p true)
          p.aLookahead).2 ≤ insertIndex p true + p.nterminal := fun hh => hcond ⟨rfl, hh⟩
      refine ⟨by omega, by omega, ?_⟩
      intro t ht1 ht2
      exact ⟨by omega, by omega⟩

theorem C2_terminal_row_safety_witness :
    0 ≤ (insertRes c1row true).2 ∧
      (insertRes c1row true).2 + 2 < (insertRes c1row true).1.nAction :=
  ⟨(C2_terminal_row_safety c1row (by decide) (by decide)).1,
   ((C2_terminal_row_safety c1row (by decide) (by decide)).2.2 2 (by decide) (by decide)).2⟩

/-- C10.  Nonterminal-row offsets are bounded below but may be
negative: every `makeItSafe = false` insertion returns an offset
`i - mnLookahead` with `i ≥ 0`, hence at least `-mnLookahead`; and on
a concrete row with minimum lookahead 5 the returned offset is `-5`,
which is negative. -/
theorem C10_nonterminal_offset_bounds :
    (∀ p : acttab, p.aLookahead ≠ [] → -p.mnLookahead ≤ (insertRes p false).2) ∧
    ((insertRes nonterminalNegRow false).2 = -5 ∧ (insertRes nonterminalNegRow false).2 < 0) := by
  constructor
  · intro p hne
    have hge : (0 : Int) ≤ insertIndex p false := by
      have := insertIndex_ge p false
      simpa using this
    rw [insertRes_eq p false hne]
    dsimp only
    omega
  · exact ⟨by decide, by decide⟩

theorem C10_nonterminal_offset_bounds_witness :
    -(nonterminalNegRow.mnLookahead) ≤ (insertRes nonterminalNegRow false).2 :=
  C10_nonterminal_offset_bounds.1 nonterminalNegRow (by decide)

theorem C3_conflict_truth_table_counterexample :
    resolve_conflict rrNegPrecX rrNegPrecY = some (.REDUCE, .RRCONFLICT, 1) ∧
    some ((e_action.REDUCE, e_action.RRCONFLICT, (1 : Int))) ≠
      some ((e_action.RD_RESOLVED, e_action.REDUCE, (0 : Int))) := by
  constructor
  · decide
  · decide

/-- C3 (amended).  Conflict-resolution truth table of
`resolve_conflict`.  Shift/Reduce: a missing reduce-precedence symbol
or a negative precedence on either side yields `SRCONFLICT` with one
conflict counted; otherwise strict comparison drops the loser
(`RD_RESOLVED` / `SH_RESOLVED`), and on equal precedence `RIGHT` drops
the reduce, `LEFT` drops the shift, and `NONE` turns the shift into an
`ERROR` action.  Reduce/Reduce: a missing precedence symbol on either
side, a negative precedence on either side, or equal precedences yield
`RRCONFLICT` with one conflict counted; otherwise the
lower-precedence rule is dropped (`RD_RESOLVED`). -/
theorem C3_conflict_truth_table (apx apy : actionC) (hsp : apx.sp = apy.sp) :
    (apx.typ = .SHIFT → apy.typ = .REDUCE →
      ((apy.x_rp.precsym = none →
          resolve_conflict apx apy = some (.SHIFT, .SRCONFLICT, 1)) ∧
       (∀ spy, apy.x_rp.precsym = some spy →
         ((apx.sp.prec < 0 ∨ spy.prec < 0) →
            resolve_conflict apx apy = some (.SHIFT, .SRCONFLICT, 1)) ∧
         (0 ≤ apx.sp.prec → 0 ≤ spy.prec →
           (spy.prec < apx.sp.prec →
              resolve_conflict apx apy = some (.SHIFT, .RD_RESOLVED, 0)) ∧
           (apx.sp.prec < spy.prec →
              resolve_conflict apx apy = some (.SH_RESOLVED, .REDUCE, 0)) ∧
           (apx.sp.prec = spy.prec →
             (apx.sp.assoc = .RIGHT →
                resolve_conflict apx apy = some (.SHIFT, .RD_RESOLVED, 0)) ∧
             (apx.sp.assoc = .LEFT →
                resolve_conflict apx apy = some (.SH_RESOLVED, .REDUCE, 0)) ∧
             (apx.sp.assoc = .NONE →
                resolve_conflict apx apy = some (.ERROR, .REDUCE, 0))))))) ∧
    (apx.typ = .REDUCE → apy.typ = .REDUCE →
      (((apx.x_rp.precsym = none ∨ apy.x_rp.precsym = none) →
          resolve_conflict apx apy = some (.REDUCE, .RRCONFLICT, 1)) ∧
       (∀ spx spy, apx.x_rp.precsym = some spx → apy.x_rp.precsym = some spy →
         ((spx.prec < 0 ∨ spy.prec < 0 ∨ spx.prec = spy.prec) →
            resolve_conflict apx apy = some (.REDUCE, .RRCONFLICT, 1)) ∧
         (0 ≤ spx.prec → 0 ≤ spy.prec →
           (spy.prec < spx.prec →
              resolve_conflict apx apy = some (.REDUCE, .RD_RESOLVED, 0)) ∧
           (spx.prec < spy.prec →
              resolve_conflict apx apy = some (.RD_RESOLVED, .REDUCE, 0)))))) := by
  have hsp' : ¬ apx.sp ≠ apy.sp := fun hh => hh hsp
  constructor
  · intro hx hy
    constructor
    · intro hps
      simp [resolve_conflict, hsp', hx, hy, hps]
    · intro spy hps
      refine ⟨?_, ?_⟩
      · intro hneg
        simp [resolve_conflict, hsp', hx, hy, hps, hneg]
      · intro hpx hpy
        have h1 : ¬ (apx.sp.prec < 0 ∨ spy.prec < 0) := by omega
        refine ⟨?_, ?_, ?_⟩
        · intro hlt
          simp [resolve_conflict, hsp', hx, hy, hps, h1, hlt]
        · intro hlt
          have h2 : ¬ spy.prec < apx.sp.prec := by omega
          simp [resolve_conflict, hsp', hx, hy, hps, h1, h2, hlt]
        · intro heq
          have h2 : ¬ spy.prec < apx.sp.prec := by omega
          have h3 : ¬ apx.sp.prec < spy.prec := by omega
          refine ⟨?_, ?_, ?_⟩ <;> intro ha <;>
            simp [resolve_conflict, hsp', hx, hy, hps, h1, h2, h3, ha]
  · intro hx hy
    constructor
    · intro hps
      rcases hps with hps | hps
      · simp [resolve_conflict, hsp', hx, hy, hps]
      · cases hqs : apx.x_rp.precsym with
        | none => simp [resolve_conflict, hsp', hx, hy, hqs]
        | some spx => simp [resolve_conflict, hsp', hx, hy, hqs, hps]
    · intro spx spy hqs hrs
      refine ⟨?_, ?_⟩
      · intro hneg
        have h1 : spx.prec < 0 ∨ spy.prec < 0 ∨ spx.prec = spy.prec := hneg
        simp [resolve_conflict, hsp', hx, hy, hqs, hrs, h1]
      · intro hpx hpy
        refine ⟨?_, ?_⟩
        · intro hlt
          have h1 : ¬ (spx.prec < 0 ∨ spy.prec < 0 ∨ spx.prec = spy.prec) := by omega
          simp [resolve_conflict, hsp', hx, hy, hqs, hrs, h1, hlt]
        · intro hlt
          have h1 : ¬ (spx.prec < 0 ∨ spy.prec < 0 ∨ spx.prec = spy.prec) := by omega
          have h2 : ¬ spy.prec < spx.prec := by omega
          simp [resolve_conflict, hsp', hx, hy, hqs, hrs, h1, h2]

theorem C3_conflict_truth_table_witness :
    resolve_conflict srShiftWinsX srShiftWinsY =
      some (.SHIFT, .RD_RESOLVED, 0) :=
  ((((C3_conflict_truth_table srShiftWinsX srShiftWinsY rfl).1 rfl rfl).2
      ⟨6, 3, .LEFT⟩ rfl).2 (by decide) (by decide)).1 (by decide)

theorem C4_action_encoding_counterexample :
    (reportTableBoundaries trimmedLemon).minShiftReduce = 6 ∧
    (reportTableBoundaries trimmedLemon).minShiftReduce ≠ trimmedLemon.nxstate := by
  constructor
  · decide
  · decide

/-- C4 (amended).  Action-encoding boundaries: `ReportTable` computes
`minShiftReduce = nstate` (the full state count, not the trimmed
`nxstate`), `errAction = minShiftReduce + nrule`,
`accAction = errAction + 1`, `noAction = accAction + 1`,
`minReduce = noAction + 1`, `maxAction = minReduce + nrule`; and
`compute_action` encodes Shift as the target's `statenum`,
ShiftReduce as `minShiftReduce + iRule` except that a ShiftReduce
whose lookahead is a nonterminal other than the error symbol encodes
as `minReduce + iRule`, Reduce as `minReduce + iRule`, Error as
`errAction`, and Accept as `accAction`. -/
theorem C4_action_encoding (l : lemonT) (ap : actionC) :
    ((reportTableBoundaries l).minShiftReduce = l.nstate ∧
     (reportTableBoundaries l).errAction = l.nstate + l.nrule ∧
     (reportTableBoundaries l).accAction = l.nstate + l.nrule + 1 ∧
     (reportTableBoundaries l).noAction = l.nstate + l.nrule + 2 ∧
     (reportTableBoundaries l).minReduce = l.nstate + l.nrule + 3 ∧
     (reportTableBoundaries l).maxAction = l.nstate + 2 * l.nrule + 3) ∧
    (ap.typ = .SHIFT → compute_action l ap = ap.x_stp.statenum) ∧
    (ap.typ = .SHIFTREDUCE → l.nterminal ≤ ap.sp.index →
      l.errsymIndex ≠ some ap.sp.index →
      compute_action l ap = l.minReduce + ap.x_rp.iRule) ∧
    (ap.typ = .SHIFTREDUCE →
      (ap.sp.index < l.nterminal ∨ l.errsymIndex = some ap.sp.index) →
      compute_action l ap = l.minShiftReduce + ap.x_rp.iRule) ∧
    (ap.typ = .REDUCE → compute_action l ap = l.minReduce + ap.x_rp.iRule) ∧
    (ap.typ = .ERROR → compute_action l ap = l.errAction) ∧
    (ap.typ = .ACCEPT → compute_action l ap = l.accAction) := by
  refine ⟨⟨?_, ?_, ?_, ?_, ?_, ?_⟩, ?_, ?_, ?_, ?_, ?_, ?_⟩
  · rfl
  · rfl
  · simp [reportTableBoundaries] <;> ring
  · simp [reportTableBoundaries] <;> ring
  · simp [reportTableBoundaries] <;> ring
  · simp [reportTableBoundaries] <;> ring
  · intro h; simp [compute_action, h]
  · intro h h1 h2
    have hc : l.nterminal ≤ ap.sp.index ∧ l.errsymIndex ≠ some ap.sp.index := ⟨h1, h2⟩
    simp [compute_action, h, hc]
  · intro h h1
    rcases h1 with h1 | h1
    · have hno : ¬ (l.nterminal ≤ ap.sp.index ∧ l.errsymIndex ≠ some ap.sp.index) := by
        rintro ⟨hh, -⟩; omega
      simp [compute_action, h, hno]
    · have hno : ¬ (l.nterminal ≤ ap.sp.index ∧ l.errsymIndex ≠ some ap.sp.index) := by
        rintro ⟨-, hh⟩; exact hh h1
      simp [compute_action, h, hno]
  · intro h; simp [compute_action, h]
  · intro h; simp [compute_action, h]
  · intro h; simp [compute_action, h]

theorem C4_action_encoding_witness :
    compute_action trimmedLemon c4reduce = trimmedLemon.minReduce + 2 :=
  (C4_action_encoding trimmedLemon c4reduce).2.2.2.2.1 rfl

theorem C5_exit_code_counterexample :
    mainExitCode defaultFlags twoParseErrors = 2 ∧ (2 : Nat) ≠ 1 := by
  constructor
  · decide
  · decide

/-- C5 (amended).  Process exit code: the program exits 0 exactly on
success; when the parse stage accumulated errors it exits with the
parse error count (which is 1 only when exactly one error was
reported); otherwise it exits 1 on an empty grammar and 1 whenever
later-stage errors or unresolved conflicts remain. -/
theorem C5_exit_code (f : mainFlags) (d : runOutcome) :
    (¬ f.printPP = true → d.parseErrcnt = 0 → d.nrule ≠ 0 → d.pipelineErrcnt = 0 →
      d.nconflict = 0 → mainExitCode f d = 0) ∧
    (0 < d.parseErrcnt → mainExitCode f d = d.parseErrcnt) ∧
    (d.parseErrcnt = 0 → ¬ f.printPP = true → d.nrule ≠ 0 →
      (0 < d.pipelineErrcnt ∨ 0 < d.nconflict) → mainExitCode f d = 1) ∧
    (mainExitCode f d = 0 →
      d.parseErrcnt = 0 ∧
      (¬ f.printPP = true → d.nrule ≠ 0 → d.pipelineErrcnt = 0 ∧ d.nconflict = 0)) := by
  refine ⟨?_, ?_, ?_, ?_⟩
  · intro h1 h2 h3 h4 h5
    simp [mainExitCode, h1, h2, h3, h4, h5]
  · intro h1
    have : f.printPP = true ∨ 0 < d.parseErrcnt := Or.inr h1
    simp [mainExitCode, this]
  · intro h1 h2 h3 h4
    have hno : ¬ (f.printPP = true ∨ 0 < d.parseErrcnt) := by
      rintro (hh | hh)
      · exact h2 hh
      · omega
    simp [mainExitCode, hno, h3, h4]
  · intro h0
    by_cases hpp : f.printPP = true ∨ 0 < d.parseErrcnt
    · rw [mainExitCode, if_pos hpp] at h0
      exact ⟨h0, by rintro hne -; rcases hpp with hh | hh
                    exacts [absurd hh hne, by omega]⟩
    · rw [mainExitCode, if_neg hpp] at h0
      have hp0 : d.parseErrcnt = 0 := by
        rcases Nat.eq_zero_or_pos d.parseErrcnt with hh | hh
        · exact hh
        · exact absurd (Or.inr hh) hpp
      refine ⟨hp0, fun _ hnr => ?_⟩
      rw [if_neg hnr] at h0
      by_cases hc : 0 < d.pipelineErrcnt ∨ 0 < d.nconflict
      · rw [if_pos hc] at h0; exact absurd h0 (by decide)
      · constructor <;> omega

theorem C5_exit_code_witness : mainExitCode defaultFlags twoParseErrors = 2 :=
  (C5_exit_code defaultFlags twoParseErrors).2.1 (by decide)

theorem C6_stages_counterexample :
    0 < oneParseError.parseErrcnt ∧
    stage.SStates ∉ stagesRun defaultFlags oneParseError := by
  constructor
  · decide
  · decide

/-- C6 (amended).  Diagnostics continue past non-fatal errors only
after parsing: errors accumulated during the analysis stages never
stop later stages (the stage list is independent of the pipeline
error and conflict counts, and with default flags every stage through
`ReportTable` runs), but a non-zero error count at the end of `Parse`
aborts the run before any analysis stage. -/
theorem C6_pipeline_ignores_error_count (f : mainFlags) (d : runOutcome) (e c : Nat)
    (hpp : ¬ f.printPP = true) (hp : d.parseErrcnt = 0) (hr : d.nrule ≠ 0)
    (hrp : ¬ f.rpflag = true) :
    stagesRun f { d with pipelineErrcnt := e, nconflict := c } = stagesRun f d ∧
    stage.SActions ∈ stagesRun f d ∧
    stage.SReportTab ∈ stagesRun f d := by
  have hno : ¬ (f.printPP = true ∨ 0 < d.parseErrcnt) := by
    rintro (hh | hh)
    · exact hpp hh
    · omega
  refine ⟨rfl, ?_, ?_⟩ <;>
    simp [stagesRun, hno, hr, hrp]

theorem C6_pipeline_ignores_error_count_witness :
    stage.SReportTab ∈ stagesRun defaultFlags
      { parseErrcnt := 0, nrule := 5, pipelineErrcnt := 7, nconflict := 3 } :=
  (C6_pipeline_ignores_error_count defaultFlags
    { parseErrcnt := 0, nrule := 5, pipelineErrcnt := 7, nconflict := 3 } 0 0
    (by decide) (by decide) (by decide) (by decide)).2.2

theorem SetUnionAux_fst (l : List (Int × Bool)) :
    ∀ (acc : (Int → Bool) × Bool) (k : Int),
      (SetUnionAux acc l).1 k = (acc.1 k || l.any (fun kv => kv.2 && kv.1 == k)) := by
  induction l with
  | nil => intro acc k; simp [SetUnionAux]
  | cons kv rest ih =>
      intro acc k
      by_cases hv : kv.2 = false
      · simp [SetUnionAux, hv, ih]
      · have hv' : kv.2 = true := by simpa using hv
        by_cases hin : acc.1 kv.1
        · rw [SetUnionAux]
          rw [if_neg (by simp [hv']), if_pos hin, ih]
          by_cases hk : kv.1 = k
          · simp [hv', hk, hk ▸ hin]
          · have hkb : (kv.1 == k) = false := by simpa using hk
            simp [hv', hkb]
        · rw [SetUnionAux]
          rw [if_neg (by simp [hv']), if_neg hin, ih]
          by_cases hk : kv.1 = k
          · simp [updB, hv', hk]
          · have hkb : (kv.1 == k) = false := by simpa using hk
            have hk2 : ¬ k = kv.1 := fun hh => hk hh.symm
            simp [updB, hv', hkb, hk2]

theorem SetUnionAux_snd (l : List (Int × Bool)) :
    ∀ (acc : (Int → Bool) × Bool),
      (SetUnionAux acc l).2 = (acc.2 || l.any (fun kv => kv.2 && !(acc.1 kv.1))) := by
  induction l with
  | nil => intro acc; simp [SetUnionAux]
  | cons kv rest ih =>
      intro acc
      by_cases hv : kv.2 = false
      · simp [SetUnionAux, hv, ih]
      · have hv' : kv.2 = true := by simpa using hv
        by_cases hin : acc.1 kv.1
        · rw [SetUnionAux]
          rw [if_neg (by simp [hv']), if_pos hin, ih]
          simp [hv', hin]
        · rw [SetUnionAux]
          rw [if_neg (by simp [hv']), if_neg hin, ih]
          have hin' : acc.1 kv.1 = false := by simpa using hin
          simp [hv', hin']

theorem perm_any_eq {α : Type} {l l' : List α} (h : l.Perm l') (p : α → Bool) :
    l.any p = l'.any p := by
  have hiff : (∃ x ∈ l, p x) ↔ (∃ x ∈ l', p x) := by
    constructor
    · rintro ⟨x, hx, hpx⟩; exact ⟨x, h.mem_iff.mp hx, hpx⟩
    · rintro ⟨x, hx, hpx⟩; exact ⟨x, h.mem_iff.mpr hx, hpx⟩
  by_cases ha : l.any p = true
  · rcases List.any_eq_true.mp ha with ⟨x, hx, hpx⟩
    rw [ha, eq_comm]
    exact List.any_eq_true.mpr ⟨x, h.mem_iff.mp hx, hpx⟩
  · have ha' : ¬ l'.any p = true := by
      intro hh
      rcases List.any_eq_true.mp hh with ⟨x, hx, hpx⟩
      exact ha (List.any_eq_true.mpr ⟨x, h.mem_iff.mpr hx, hpx⟩)
    rw [Bool.not_eq_true] at ha ha'
    rw [ha, ha']

/-- C8.  Determinism in spite of Go-map iteration: `SetUnion` is the
only core routine that ranges over a map in unspecified order, and its
results — the final contents of `s1` and the `progress` flag — are the
same for every enumeration order of `s2`; consequently the lookahead
rows that `FindActions` derives from the resulting sets through
index-ordered `SetFind` probes are identical as well, so the emitted
tables are a function of the input grammar only. -/
theorem C8_set_union_order_independent (s1 : Int → Bool)
    (l l' : List (Int × Bool)) (h : l.Perm l') :
    (∀ k : Int, (SetUnionGo s1 l).1 k = (SetUnionGo s1 l').1 k) ∧
    (SetUnionGo s1 l).2 = (SetUnionGo s1 l').2 ∧
    (∀ n : Nat, followSetRow (SetUnionGo s1 l).1 n = followSetRow (SetUnionGo s1 l').1 n) := by
  have hfst : ∀ k : Int, (SetUnionGo s1 l).1 k = (SetUnionGo s1 l').1 k := by
    intro k
    rw [SetUnionGo, SetUnionGo, SetUnionAux_fst, SetUnionAux_fst,
      perm_any_eq h (fun kv => kv.2 && kv.1 == k)]
  refine ⟨hfst, ?_, ?_⟩
  · rw [SetUnionGo, SetUnionGo, SetUnionAux_snd, SetUnionAux_snd,
      perm_any_eq h (fun kv => kv.2 && !(s1 kv.1))]
  · intro n
    unfold followSetRow
    congr 1
    funext j
    rw [hfst (j : Int)]

theorem C8_set_union_order_independent_witness :
    (SetUnionGo (fun k => k == 0) enumA).2 = (SetUnionGo (fun k => k == 0) enumB).2 :=
  (C8_set_union_order_independent (fun k => k == 0) enumA enumB (by decide)).2.1

theorem assignIdx_length (l : List symS) : ∀ i : Int, (assignIdx i l).length = l.length := by
  induction l with
  | nil => intro i; rfl
  | cons s rest ih => intro i; simp [assignIdx, ih]

theorem assignIdx_get (l : List symS) :
    ∀ (i : Int) (k : Nat) (hk : k < (assignIdx i l).length) (hk' : k < l.length),
      (assignIdx i l).get ⟨k, hk⟩ = { l.get ⟨k, hk'⟩ with index := i + k } := by
  induction l with
  | nil => intro i k hk hk'; exact absurd hk' (by simp)
  | cons s rest ih =>
      intro i k hk hk'
      cases k with
      | zero => simp [assignIdx]
      | succ m =>
          have hm' : m < rest.length := by simpa using hk'
          have hm : m < (assignIdx (i + 1) rest).length := by
            rw [assignIdx_length]; exact hm'
          have hstep : (assignIdx i (s :: rest)).get ⟨m + 1, hk⟩ =
              (assignIdx (i + 1) rest).get ⟨m, hm⟩ := rfl
          rw [hstep, ih (i + 1) m hm hm']
          have hget : ((s :: rest).get ⟨m + 1, hk'⟩ : symS) = rest.get ⟨m, hm'⟩ := rfl
          rw [hget]
          have hidx : i + 1 + (m : Int) = i + ((m : Nat) + 1 : Nat) := by push_cast; ring
          rw [hidx]

theorem symClassOf_mem (a : symS) :
    symClassOf a = 1 ∨ symClassOf a = 2 ∨ symClassOf a = 3 := by
  unfold symClassOf
  split
  · exact Or.inr (Or.inr rfl)
  · split
    · exact Or.inr (Or.inl rfl)
    · exact Or.inl rfl

theorem symClassOf_eq_three_iff (a : symS) :
    symClassOf a = 3 ↔ a.typ = .MULTITERMINAL := by
  constructor
  · intro h
    by_contra hmt
    unfold symClassOf at h
    rw [if_neg hmt] at h
    split at h <;> omega
  · intro h
    unfold symClassOf
    rw [if_pos h]

theorem symClassOf_index_irrel (a : symS) (i : Int) :
    symClassOf { a with index := i } = symClassOf a := rfl

theorem symLe_iff (a b : symS) :
    symLe a b = true ↔
      (symClassOf a < symClassOf b ∨
        (symClassOf a = symClassOf b ∧ a.index ≤ b.index)) := by
  unfold symLe Symbolcmpp
  by_cases h : symClassOf a = symClassOf b
  · rw [if_pos h]
    constructor
    · intro hh
      exact Or.inr ⟨h, by have := of_decide_eq_true hh; omega⟩
    · intro hh
      apply decide_eq_true
      rcases hh with hh | ⟨-, hh⟩
      · omega
      · omega
  · rw [if_neg h]
    constructor
    · intro hh
      have := of_decide_eq_true hh
      exact Or.inl (by omega)
    · intro hh
      apply decide_eq_true
      rcases hh with hh | ⟨hh, -⟩
      · omega
      · exact absurd hh h

theorem symLe_trans (a b c : symS) (hab : symLe a b = true) (hbc : symLe b c = true) :
    symLe a c = true := by
  rw [symLe_iff] at hab hbc ⊢
  rcases hab with h1 | ⟨h1, h1i⟩ <;> rcases hbc with h2 | ⟨h2, h2i⟩
  · exact Or.inl (by omega)
  · exact Or.inl (by omega)
  · exact Or.inl (by omega)
  · exact Or.inr ⟨by omega, by omega⟩

theorem symLe_total (a b : symS) : (symLe a b || symLe b a) = true := by
  by_cases h : symLe a b = true
  · rw [h]; rfl
  · have hnot : ¬ (symClassOf a < symClassOf b ∨
        (symClassOf a = symClassOf b ∧ a.index ≤ b.index)) :=
      fun hh => h ((symLe_iff a b).mpr hh)
    have h' : symLe b a = true := by
      rw [symLe_iff]
      by_cases hc : symClassOf a = symClassOf b
      · refine Or.inr ⟨hc.symm, ?_⟩
        by_contra hi
        exact hnot (Or.inr ⟨hc, by omega⟩)
      · refine Or.inl ?_
        by_contra hi
        exact hnot (Or.inl (by omega))
    rw [h']
    simp

theorem takeWhile_length_eq {α : Type} (p : α → Bool) :
    ∀ (l : List α) (q : Nat), q ≤ l.length →
      (∀ (m : Nat) (hm : m < l.length), m < q → p (l.get ⟨m, hm⟩) = true) →
      (∀ (hql : q < l.length), p (l.get ⟨q, hql⟩) = false) →
      (l.takeWhile p).length = q := by
  intro l
  induction l with
  | nil =>
      intro q hq _ _
      have : q = 0 := by simpa using hq
      simp [this]
  | cons a tl ih =>
      intro q hq h1 h2
      cases q with
      | zero =>
          have hpa : p a = false := h2 (by simp)
          rw [List.takeWhile_cons_of_neg (by simp [hpa])]
          rfl
      | succ n =>
          have hpa : p a = true := h1 0 (by simp) (by omega)
          rw [List.takeWhile_cons_of_pos hpa]
          have hres := ih n (by simpa using hq)
            (fun m hm hmn => h1 (m + 1) (by simpa using hm) (by omega))
            (fun hql => h2 (by simpa using hql))
          simp [hres]

theorem countP_boundary {α : Type} (p : α → Bool) :
    ∀ (l : List α),
      (∀ (i j : Nat) (hi : i < l.length) (hj : j < l.length), i ≤ j →
          p (l.get ⟨j, hj⟩) = true → p (l.get ⟨i, hi⟩) = true) →
      ∀ (k : Nat) (hk : k < l.length), (p (l.get ⟨k, hk⟩) = true ↔ k < l.countP p) := by
  intro l
  induction l with
  | nil => intro _ k hk; exact absurd hk (by simp)
  | cons a tl ih =>
      intro hcl k hk
      have hcl' : ∀ (i j : Nat) (hi : i < tl.length) (hj : j < tl.length), i ≤ j →
          p (tl.get ⟨j, hj⟩) = true → p (tl.get ⟨i, hi⟩) = true := by
        intro i j hi hj hij hpj
        exact hcl (i + 1) (j + 1) (by simpa using hi) (by simpa using hj) (by omega) hpj
      by_cases hpa : p a = true
      · rw [List.countP_cons_of_pos p tl hpa]
        cases k with
        | zero => simpa using hpa
        | succ m =>
            have hm : m < tl.length := by simpa using hk
            have := ih hcl' m hm
            constructor
            · intro hh
              have := this.mp hh
              omega
            · intro hh
              exact this.mpr (by omega)
      · rw [List.countP_cons_of_neg p tl hpa]
        have htl0 : tl.countP p = 0 := by
          rw [List.countP_eq_zero]
          intro x hx hpx
          rcases List.mem_iff_get.mp hx with ⟨⟨m, hm⟩, rfl⟩
          exact hpa (hcl 0 (m + 1) (by simp) (by simpa using hm) (by omega) hpx)
        rw [htl0]
        cases k with
        | zero =>
            constructor
            · intro hh; exact absurd hh hpa
            · intro hh; omega
        | succ m =>
            have hm : m < tl.length := by simpa using hk
            constructor
            · intro hh
              exact absurd (hcl 0 (m + 1) (by simp) hk (by omega) hh) hpa
            · intro hh; omega

theorem uint32_le_toNat {a b : UInt32} : a ≤ b ↔ a.toNat ≤ b.toNat := by
  rw [UInt32.le_def, BitVec.le_def]
  exact Iff.rfl

theorem uint32_lt_toNat {a b : UInt32} : a < b ↔ a.toNat < b.toNat := by
  rw [UInt32.lt_def, BitVec.lt_def]
  exact Iff.rfl

theorem isUpper_not_gtZ (c : Char) (h : c.isUpper = true) : ¬ ('Z' < c) := by
  intro hlt
  simp only [Char.isUpper, Bool.and_eq_true, decide_eq_true_eq] at h
  rw [Char.lt_def, uint32_lt_toNat] at hlt
  rcases h with ⟨-, h2⟩
  have h2' : c.val ≤ (90 : UInt32) := h2
  rw [uint32_le_toNat] at h2'
  have hz : ('Z'.val).toNat = 90 := by decide
  have h90 : (90 : UInt32).toNat = 90 := by decide
  omega

theorem isLower_gtZ (c : Char) (h : c.isLower = true) : ('Z' < c) := by
  simp only [Char.isLower, Bool.and_eq_true, decide_eq_true_eq] at h
  rw [Char.lt_def, uint32_lt_toNat]
  rcases h with ⟨h1, -⟩
  have h1' : (97 : UInt32) ≤ c.val := h1
  rw [uint32_le_toNat] at h1'
  have hz : ('Z'.val).toNat = 90 := by decide
  have h97 : (97 : UInt32).toNat = 97 := by decide
  omega

theorem isLower_not_isUpper (c : Char) (h : c.isLower = true) : c.isUpper = false := by
  simp only [Char.isLower, Bool.and_eq_true, decide_eq_true_eq] at h
  simp only [Char.isUpper, Bool.and_eq_false_iff]
  right
  rcases h with ⟨h1, -⟩
  have h1' : (97 : UInt32) ≤ c.val := h1
  rw [uint32_le_toNat] at h1'
  simp only [decide_eq_false_iff_not]
  intro h2'
  rw [uint32_le_toNat] at h2'
  have h90 : (90 : UInt32).toNat = 90 := by decide
  have h97 : (97 : UInt32).toNat = 97 := by decide
  omega

theorem symClassOf_of_dollar (a : symS) (hn : a.name = dollarName)
    (ht : a.typ = .NONTERMINAL) : symClassOf a = 1 := by
  have h1 : ¬ a.typ = symtype.MULTITERMINAL := by rw [ht]; decide
  have h2 : ¬ (a.name ≠ "" ∧ firstCharGtZ a.name = true) := by rw [hn]; decide
  unfold symClassOf
  rw [if_neg h1, if_neg h2]

theorem symClassOf_of_default (a : symS) (hn : a.name = defaultName)
    (ht : a.typ = .NONTERMINAL) : symClassOf a = 2 := by
  have h1 : ¬ a.typ = symtype.MULTITERMINAL := by rw [ht]; decide
  have h2 : a.name ≠ "" ∧ firstCharGtZ a.name = true := by rw [hn]; decide
  unfold symClassOf
  rw [if_neg h1, if_pos h2]

theorem firstRuneIsUpper_dollar : firstRuneIsUpper dollarName = false := by decide

theorem firstRuneIsUpper_default : firstRuneIsUpper defaultName = false := by decide

theorem symClassOf_of_multi (a : symS) (ht : a.typ = .MULTITERMINAL) :
    symClassOf a = 3 := by
  unfold symClassOf
  rw [if_pos ht]

theorem mid_class_cases (s : symS) (hmt : ¬ s.typ = .MULTITERMINAL)
    (hlet : asciiLetterFirst s.name = true) (hty : s.typ = symbolNewType s.name) :
    (symClassOf s = 1 ∧ s.typ = .TERMINAL ∧ firstRuneIsUpper s.name = true) ∨
    (symClassOf s = 2 ∧ s.typ = .NONTERMINAL ∧ firstRuneIsUpper s.name = false) := by
  cases hcd : s.name.data with
  | nil =>
      exfalso
      unfold asciiLetterFirst at hlet
      rw [hcd] at hlet
      simp at hlet
  | cons c cs =>
      have hne : s.name ≠ "" := by
        intro hh
        rw [hh] at hcd
        simp at hcd
      have hup : firstRuneIsUpper s.name = c.isUpper := by
        unfold firstRuneIsUpper
        rw [hcd]
      have hgt : firstCharGtZ s.name = decide ('Z' < c) := by
        unfold firstCharGtZ
        rw [hcd]
      have hlet' : (c.isUpper || c.isLower) = true := by
        unfold asciiLetterFirst at hlet
        rw [hcd] at hlet
        exact hlet
      rcases (Bool.or_eq_true _ _).mp hlet' with hU | hL
      · left
        have hgtf : firstCharGtZ s.name = false := by
          rw [hgt]
          simpa using isUpper_not_gtZ c hU
        refine ⟨?_, ?_, ?_⟩
        · unfold symClassOf
          rw [if_neg hmt, if_neg ?hc2]
          case hc2 =>
            rintro ⟨-, hh⟩
            rw [hgtf] at hh
            exact absurd hh (by decide)
        · rw [hty]
          unfold symbolNewType
          rw [if_pos (by rw [hup]; exact hU)]
        · rw [hup]; exact hU
      · right
        have hgtt : firstCharGtZ s.name = true := by
          rw [hgt]
          simpa using isLower_gtZ c hL
        have hupf : firstRuneIsUpper s.name = false := by
          rw [hup]
          exact isLower_not_isUpper c hL
        refine ⟨?_, ?_, ?_⟩
        · unfold symClassOf
          rw [if_neg hmt, if_pos ⟨hne, hgtt⟩]
        · rw [hty]
          unfold symbolNewType
          rw [if_neg (by rw [hupf]; decide)]
        · exact hupf

theorem symLe_class_mono (a b : symS) (h : symLe a b = true) :
    symClassOf a ≤ symClassOf b := by
  rw [symLe_iff] at h
  rcases h with h | ⟨h, -⟩ <;> omega

theorem symClassOf_pos (a : symS) : 1 ≤ symClassOf a := by
  rcases symClassOf_mem a with h | h | h <;> omega

theorem registryList_get_zero (dollar : symS) (mid : List symS) (dflt : symS)
    (hk : 0 < (registryList dollar mid dflt).length) :
    (registryList dollar mid dflt).get ⟨0, hk⟩ = dollar := rfl

theorem registryList_length (dollar : symS) (mid : List symS) (dflt : symS) :
    (registryList dollar mid dflt).length = mid.length + 2 := by
  simp [registryList]

theorem registryList_get_last (dollar : symS) (mid : List symS) (dflt : symS)
    (hk : mid.length + 1 < (registryList dollar mid dflt).length) :
    (registryList dollar mid dflt).get ⟨mid.length + 1, hk⟩ = dflt := by
  rw [List.get_eq_getElem]
  show (dollar :: (mid ++ [dflt]))[mid.length + 1] = dflt
  rw [List.getElem_cons_succ]
  exact List.getElem_concat_length mid dflt mid.length rfl _

theorem registryList_get_mid (dollar : symS) (mid : List symS) (dflt : symS)
    (k : Nat) (hk : k < (registryList dollar mid dflt).length)
    (h1 : 1 ≤ k) (h2 : k ≤ mid.length) :
    (registryList dollar mid dflt).get ⟨k, hk⟩ ∈ mid := by
  rw [List.get_eq_getElem]
  obtain ⟨m, rfl⟩ : ∃ m, k = m + 1 := ⟨k - 1, by omega⟩
  show (dollar :: (mid ++ [dflt]))[m + 1] ∈ mid
  rw [List.getElem_cons_succ]
  have hm : m < mid.length := by omega
  rw [List.getElem_append_left hm]
  exact List.getElem_mem hm

theorem registry_sorted_facts
    (dollar : symS) (mid : List symS) (dflt : symS)
    (hdn : dollar.name = dollarName) (hdt : dollar.typ = .NONTERMINAL)
    (hfn : dflt.name = defaultName) (hft : dflt.typ = .NONTERMINAL)
    (hmid : ∀ s ∈ mid, midSymbolOK s) :
    ∀ S0 : List symS,
      S0 = List.mergeSort (assignIdx 0 (registryList dollar mid dflt)) symLe →
    ∀ t1 t2 : Nat,
      t1 = List.countP (fun s => decide (symClassOf s ≤ 1)) S0 →
      t2 = List.countP (fun s => decide (symClassOf s ≤ 2)) S0 →
      S0.length = mid.length + 2 ∧
      (1 ≤ t1 ∧ t1 < t2 ∧ t2 ≤ S0.length) ∧
      (∀ (k : Nat) (hk : k < S0.length),
        (symClassOf (S0.get ⟨k, hk⟩) ≤ 1 ↔ k < t1) ∧
        (symClassOf (S0.get ⟨k, hk⟩) ≤ 2 ↔ k < t2)) ∧
      (∀ hk : 0 < S0.length,
        S0.get ⟨0, hk⟩ = { dollar with index := 0 }) ∧
      (∀ hk : t2 - 1 < S0.length,
        S0.get ⟨t2 - 1, hk⟩ = { dflt with index := ((mid.length + 1 : Nat) : Int) }) ∧
      (∀ (k : Nat) (hk : k < S0.length), 1 ≤ k → k < t1 →
        (S0.get ⟨k, hk⟩).typ = .TERMINAL ∧
        firstRuneIsUpper (S0.get ⟨k, hk⟩).name = true) ∧
      (∀ (k : Nat) (hk : k < S0.length), t1 ≤ k → k < t2 →
        (S0.get ⟨k, hk⟩).typ = .NONTERMINAL ∧
        firstRuneIsUpper (S0.get ⟨k, hk⟩).name = false) ∧
      (∀ (k : Nat) (hk : k < S0.length), t2 ≤ k →
        (S0.get ⟨k, hk⟩).typ = .MULTITERMINAL) ∧
      (∀ (k : Nat) (hk : k < S0.length),
        (S0.get ⟨k, hk⟩).typ = .TERMINAL → k < t1) := by
  intro S0 hS0 t1 t2 ht1 ht2
  have hLlen := registryList_length dollar mid dflt
  have hperm : S0.Perm (assignIdx 0 (registryList dollar mid dflt)) := by
    rw [hS0]; exact List.mergeSort_perm _ _
  have hpairwise : S0.Pairwise (fun a b => symLe a b = true) := by
    rw [hS0]; exact List.sorted_mergeSort symLe_trans symLe_total _
  have hL1len : (assignIdx 0 (registryList dollar mid dflt)).length = mid.length + 2 := by
    rw [assignIdx_length, hLlen]
  have hS0len : S0.length = mid.length + 2 := by rw [hperm.length_eq, hL1len]
  have hL1get : ∀ (k : Nat) (hk : k < (assignIdx 0 (registryList dollar mid dflt)).length)
      (hk' : k < (registryList dollar mid dflt).length),
      (assignIdx 0 (registryList dollar mid dflt)).get ⟨k, hk⟩ =
        { (registryList dollar mid dflt).get ⟨k, hk'⟩ with index := (k : Int) } := by
    intro k hk hk'
    have h := assignIdx_get (registryList dollar mid dflt) 0 k hk hk'
    rwa [zero_add] at h
  have hL1idx : ∀ (k : Nat) (hk : k < (assignIdx 0 (registryList dollar mid dflt)).length),
      ((assignIdx 0 (registryList dollar mid dflt)).get ⟨k, hk⟩).index = (k : Int) := by
    intro k hk
    have hk' : k < (registryList dollar mid dflt).length := by
      rw [hLlen]
      have := hk
      rw [hL1len] at this
      omega
    rw [hL1get k hk hk']
  have hL1cases : ∀ (k : Nat) (hk : k < (assignIdx 0 (registryList dollar mid dflt)).length),
      (k = 0 ∧ (assignIdx 0 (registryList dollar mid dflt)).get ⟨k, hk⟩ =
        { dollar with index := 0 }) ∨
      ((1 ≤ k ∧ k ≤ mid.length) ∧ ∃ s, s ∈ mid ∧
        (assignIdx 0 (registryList dollar mid dflt)).get ⟨k, hk⟩ =
          { s with index := (k : Int) }) ∨
      (k = mid.length + 1 ∧ (assignIdx 0 (registryList dollar mid dflt)).get ⟨k, hk⟩ =
        { dflt with index := ((mid.length + 1 : Nat) : Int) }) := by
    intro k hk
    have hk' : k < (registryList dollar mid dflt).length := by
      rw [hLlen]
      have := hk
      rw [hL1len] at this
      omega
    rcases Nat.lt_or_ge k 1 with h0 | h1
    · left
      have hk0 : k = 0 := by omega
      subst hk0
      refine ⟨rfl, ?_⟩
      rw [hL1get 0 hk hk', registryList_get_zero dollar mid dflt hk']
      norm_num
    · rcases Nat.lt_or_ge k (mid.length + 1) with hle | hge
      · right; left
        exact ⟨⟨h1, by omega⟩,
          ⟨(registryList dollar mid dflt).get ⟨k, hk'⟩,
            registryList_get_mid dollar mid dflt k hk' h1 (by omega),
            hL1get k hk hk'⟩⟩
      · right; right
        have hkl : k = mid.length + 1 := by
          have := hk'
          rw [hLlen] at this
          omega
        subst hkl
        refine ⟨rfl, ?_⟩
        rw [hL1get _ hk hk', registryList_get_last dollar mid dflt hk']
  have hL1nodup : (assignIdx 0 (registryList dollar mid dflt)).Nodup := by
    refine List.pairwise_iff_get.mpr ?_
    intro i j hij heq
    have h1 := hL1idx i.1 i.2
    have h2 := hL1idx j.1 j.2
    rw [heq] at h1
    rw [h2] at h1
    have hij' : i.1 < j.1 := hij
    omega
  have hS0nodup : S0.Nodup := hperm.nodup_iff.mpr hL1nodup
  have hdollar0cls : symClassOf { dollar with index := 0 } = 1 :=
    symClassOf_of_dollar _ hdn hdt
  have hdfltEcls : symClassOf { dflt with index := ((mid.length + 1 : Nat) : Int) } = 2 :=
    symClassOf_of_default _ hfn hft
  have hmemClass : ∀ x : symS, x ∈ S0 →
      (symClassOf x = 1 ∧ x.typ = .TERMINAL ∧ firstRuneIsUpper x.name = true) ∨
      (x = { dollar with index := 0 }) ∨
      (symClassOf x = 2 ∧ x.typ = .NONTERMINAL ∧ firstRuneIsUpper x.name = false) ∨
      (symClassOf x = 3 ∧ x.typ = .MULTITERMINAL) := by
    intro x hxS0
    have hx : x ∈ assignIdx 0 (registryList dollar mid dflt) := hperm.mem_iff.mp hxS0
    rcases List.mem_iff_get.mp hx with ⟨⟨k, hk⟩, rfl⟩
    rcases hL1cases k hk with ⟨-, hEq⟩ | ⟨⟨-, -⟩, s, hs, hEq⟩ | ⟨-, hEq⟩
    · right; left; exact hEq
    · by_cases hmt : s.typ = symtype.MULTITERMINAL
      · right; right; right
        rw [hEq]
        exact ⟨symClassOf_of_multi _ hmt, hmt⟩
      · rcases hmid s hs hmt with ⟨hlet, hty⟩
        rcases mid_class_cases s hmt hlet hty with ⟨h1, h2, h3⟩ | ⟨h1, h2, h3⟩
        · left; rw [hEq]; exact ⟨h1, h2, h3⟩
        · right; right; left; rw [hEq]; exact ⟨h1, h2, h3⟩
    · right; right; left
      rw [hEq]
      refine ⟨hdfltEcls, hft, ?_⟩
      show firstRuneIsUpper dflt.name = false
      rw [hfn]
      exact firstRuneIsUpper_default
  have hdcm : ∀ (m : Int) (i j : Nat) (hi : i < S0.length) (hj : j < S0.length), i ≤ j →
      decide (symClassOf (S0.get ⟨j, hj⟩) ≤ m) = true →
      decide (symClassOf (S0.get ⟨i, hi⟩) ≤ m) = true := by
    intro m i j hi hj hij hpj
    rcases Nat.eq_or_lt_of_le hij with rfl | hlt
    · exact hpj
    · have hle := List.pairwise_iff_get.mp hpairwise ⟨i, hi⟩ ⟨j, hj⟩ hlt
      have hcls := symLe_class_mono _ _ hle
      simp only [decide_eq_true_eq] at hpj ⊢
      omega
  have hb1 : ∀ (k : Nat) (hk : k < S0.length),
      (symClassOf (S0.get ⟨k, hk⟩) ≤ 1 ↔ k < t1) := by
    intro k hk
    have h := countP_boundary (fun s => decide (symClassOf s ≤ 1)) S0 (hdcm 1) k hk
    rw [ht1]
    simpa using h
  have hb2 : ∀ (k : Nat) (hk : k < S0.length),
      (symClassOf (S0.get ⟨k, hk⟩) ≤ 2 ↔ k < t2) := by
    intro k hk
    have h := countP_boundary (fun s => decide (symClassOf s ≤ 2)) S0 (hdcm 2) k hk
    rw [ht2]
    simpa using h
  have h0len : 0 < (assignIdx 0 (registryList dollar mid dflt)).length := by
    rw [hL1len]; omega
  have hdollarMem : ({ dollar with index := 0 } : symS) ∈ S0 := by
    rcases hL1cases 0 h0len with ⟨-, hEq⟩ | ⟨⟨h1, -⟩, -⟩ | ⟨habs, -⟩
    · rw [← hEq]
      exact hperm.mem_iff.mpr (List.get_mem _ 0 h0len)
    · omega
    · omega
  have hlastlen : mid.length + 1 < (assignIdx 0 (registryList dollar mid dflt)).length := by
    rw [hL1len]; omega
  have hdfltMem : ({ dflt with index := ((mid.length + 1 : Nat) : Int) } : symS) ∈ S0 := by
    rcases hL1cases (mid.length + 1) hlastlen with ⟨habs, -⟩ | ⟨⟨-, habs⟩, -⟩ | ⟨-, hEq⟩
    · omega
    · omega
    · rw [← hEq]
      exact hperm.mem_iff.mpr (List.get_mem _ (mid.length + 1) hlastlen)
  have ht1pos : 1 ≤ t1 := by
    have : 0 < List.countP (fun s => decide (symClassOf s ≤ 1)) S0 :=
      List.countP_pos.mpr ⟨_, hdollarMem, by rw [decide_eq_true_eq, hdollar0cls]⟩
    omega
  have ht2le : t2 ≤ S0.length := by
    rw [ht2]
    exact List.countP_le_length _
  rcases List.mem_iff_get.mp hdfltMem with ⟨⟨j1, hj1⟩, hj1eq⟩
  have hj1cls : symClassOf (S0.get ⟨j1, hj1⟩) = 2 := by rw [hj1eq]; exact hdfltEcls
  have hj1t2 : j1 < t2 := (hb2 j1 hj1).mp (by omega)
  have hj1t1 : ¬ j1 < t1 := fun hh => by
    have := (hb1 j1 hj1).mpr hh
    omega
  have ht1t2 : t1 < t2 := by omega
  have hhead : ∀ hk : 0 < S0.length, S0.get ⟨0, hk⟩ = { dollar with index := 0 } := by
    intro hk
    rcases List.mem_iff_get.mp hdollarMem with ⟨⟨j0, hj0⟩, hj0eq⟩
    rcases Nat.eq_zero_or_pos j0 with rfl | hpos
    · exact hj0eq
    · have hle := List.pairwise_iff_get.mp hpairwise ⟨0, hk⟩ ⟨j0, hj0⟩ hpos
      rw [hj0eq] at hle
      rw [symLe_iff] at hle
      have hx0mem : S0.get ⟨0, hk⟩ ∈ assignIdx 0 (registryList dollar mid dflt) :=
        hperm.mem_iff.mp (List.get_mem _ 0 hk)
      rcases List.mem_iff_get.mp hx0mem with ⟨⟨k0, hk0⟩, hk0eq⟩
      have hidx0 : (S0.get ⟨0, hk⟩).index = (k0 : Int) := by
        rw [← hk0eq]
        exact hL1idx k0 hk0
      rcases hle with hlt | ⟨-, hile⟩
      · rw [hdollar0cls] at hlt
        have := symClassOf_pos (S0.get ⟨0, hk⟩)
        omega
      · have hd0 : ({ dollar with index := 0 } : symS).index = 0 := rfl
        rw [hd0, hidx0] at hile
        have hk00 : k0 = 0 := by omega
        subst hk00
        rw [← hk0eq]
        rcases hL1cases 0 hk0 with ⟨-, hEq⟩ | ⟨⟨h1, -⟩, -⟩ | ⟨habs, -⟩
        · exact hEq
        · omega
        · omega
  have hlastpos : ∀ hk : t2 - 1 < S0.length,
      S0.get ⟨t2 - 1, hk⟩ = { dflt with index := ((mid.length + 1 : Nat) : Int) } := by
    intro hk
    rcases Nat.eq_or_lt_of_le (Nat.succ_le_of_lt (by omega : j1 < t2)) with hj1last | hj1lt
    · have : j1 = t2 - 1 := by omega
      subst this
      exact hj1eq
    · have hj1lt' : j1 < t2 - 1 := by omega
      have hle := List.pairwise_iff_get.mp hpairwise ⟨j1, hj1⟩ ⟨t2 - 1, hk⟩ hj1lt'
      rw [hj1eq] at hle
      rw [symLe_iff] at hle
      have hqcls : symClassOf (S0.get ⟨t2 - 1, hk⟩) ≤ 2 := (hb2 _ hk).mpr (by omega)
      have hxmem : S0.get ⟨t2 - 1, hk⟩ ∈ assignIdx 0 (registryList dollar mid dflt) :=
        hperm.mem_iff.mp (List.get_mem _ _ hk)
      rcases List.mem_iff_get.mp hxmem with ⟨⟨kq, hkq⟩, hkqeq⟩
      have hidxq : (S0.get ⟨t2 - 1, hk⟩).index = (kq : Int) := by
        rw [← hkqeq]
        exact hL1idx kq hkq
      rcases hle with hlt | ⟨-, hile⟩
      · rw [hdfltEcls] at hlt
        omega
      · have hdE : ({ dflt with index := ((mid.length + 1 : Nat) : Int) } : symS).index =
            ((mid.length + 1 : Nat) : Int) := rfl
        rw [hdE, hidxq] at hile
        have hkqlt : kq < mid.length + 2 := by
          have := hkq
          rw [hL1len] at this
          omega
        have hkql : kq = mid.length + 1 := by
          have h1 : (mid.length + 1 : Int) ≤ (kq : Int) := by exact_mod_cast hile
          omega
        subst hkql
        rw [← hkqeq]
        rcases hL1cases (mid.length + 1) hkq with ⟨habs, -⟩ | ⟨⟨-, habs⟩, -⟩ | ⟨-, hEq⟩
        · omega
        · omega
        · exact hEq
  refine ⟨hS0len, ⟨ht1pos, ht1t2, ht2le⟩, fun k hk => ⟨hb1 k hk, hb2 k hk⟩,
    hhead, hlastpos, ?_, ?_, ?_, ?_⟩
  · intro k hk h1k hkt1
    have hcls : symClassOf (S0.get ⟨k, hk⟩) ≤ 1 := (hb1 k hk).mpr hkt1
    rcases hmemClass _ (List.get_mem S0 k hk) with ⟨-, h2, h3⟩ | hEq | ⟨h1, -, -⟩ | ⟨h1, -⟩
    · exact ⟨h2, h3⟩
    · exfalso
      have h0 : (0 : Nat) < S0.length := by omega
      have : S0.get ⟨k, hk⟩ = S0.get ⟨0, h0⟩ := by rw [hEq, hhead h0]
      have := (hS0nodup.get_inj_iff).mp this
      have : k = 0 := congrArg Fin.val this
      omega
    · omega
    · omega
  · intro k hk ht1k hkt2
    have hcls2 : symClassOf (S0.get ⟨k, hk⟩) ≤ 2 := (hb2 k hk).mpr hkt2
    have hcls1 : ¬ symClassOf (S0.get ⟨k, hk⟩) ≤ 1 := fun hh => by
      have := (hb1 k hk).mp hh
      omega
    rcases hmemClass _ (List.get_mem S0 k hk) with ⟨h1, -, -⟩ | hEq | ⟨-, h2, h3⟩ | ⟨h1, -⟩
    · omega
    · exfalso
      have : symClassOf (S0.get ⟨k, hk⟩) = 1 := by rw [hEq]; exact hdollar0cls
      omega
    · exact ⟨h2, h3⟩
    · omega
  · intro k hk ht2k
    have hcls2 : ¬ symClassOf (S0.get ⟨k, hk⟩) ≤ 2 := fun hh => by
      have := (hb2 k hk).mp hh
      omega
    rcases hmemClass _ (List.get_mem S0 k hk) with ⟨h1, -, -⟩ | hEq | ⟨h1, -, -⟩ | ⟨-, h2⟩
    · omega
    · exfalso
      have : symClassOf (S0.get ⟨k, hk⟩) = 1 := by rw [hEq]; exact hdollar0cls
      omega
    · omega
    · exact h2
  · intro k hk hterm
    rcases hmemClass _ (List.get_mem S0 k hk) with ⟨h1, -, -⟩ | hEq | ⟨-, h2, -⟩ | ⟨-, h2⟩
    · exact (hb1 k hk).mp (by omega)
    · exfalso
      have : (S0.get ⟨k, hk⟩).typ = symtype.NONTERMINAL := by rw [hEq]; exact hdt
      rw [hterm] at this
      exact absurd this (by decide)
    · rw [hterm] at h2
      exact absurd h2 (by decide)
    · rw [hterm] at h2
      exact absurd h2 (by decide)

/-- C7.  Symbol numbering after the registry sort: with `$` interned
first, `{default}` interned last, and every other non-multiterminal
symbol an identifier typed by `Symbol_new`, the sorted, densely
reindexed symbol array has the end-of-input symbol `$` at index 0,
exactly the terminals below `nterminal`, the nonterminals on
`[nterminal, nsymbol)`, the synthetic `{default}` at index `nsymbol`
(the largest non-multiterminal index), and the multiterminals at the
very end; and a `Symbol_new`-typed symbol with an uppercase initial is
a terminal (the tokenizer guard makes every constituent of a
multiterminal such a symbol). -/
theorem C7_symbol_numbering
    (dollar : symS) (mid : List symS) (dflt : symS)
    (hdn : dollar.name = dollarName) (hdt : dollar.typ = .NONTERMINAL)
    (hfn : dflt.name = defaultName) (hft : dflt.typ = .NONTERMINAL)
    (hmid : ∀ s ∈ mid, midSymbolOK s) :
    (sortSymbols (registryList dollar mid dflt)).length = mid.length + 2 ∧
    1 ≤ mainNterminal (registryList dollar mid dflt) ∧
    mainNterminal (registryList dollar mid dflt) ≤
      mainNsymbol (registryList dollar mid dflt) ∧
    mainNsymbol (registryList dollar mid dflt) <
      (sortSymbols (registryList dollar mid dflt)).length ∧
    (∀ (k : Nat) (hk : k < (sortSymbols (registryList dollar mid dflt)).length),
      ((sortSymbols (registryList dollar mid dflt)).get ⟨k, hk⟩).index = (k : Int)) ∧
    (∀ hk : 0 < (sortSymbols (registryList dollar mid dflt)).length,
      ((sortSymbols (registryList dollar mid dflt)).get ⟨0, hk⟩).name = dollarName) ∧
    (∀ (k : Nat) (hk : k < (sortSymbols (registryList dollar mid dflt)).length),
      k < mainNterminal (registryList dollar mid dflt) →
      (((sortSymbols (registryList dollar mid dflt)).get ⟨k, hk⟩).typ = .TERMINAL ∨
        ((sortSymbols (registryList dollar mid dflt)).get ⟨k, hk⟩).name = dollarName)) ∧
    (∀ (k : Nat) (hk : k < (sortSymbols (registryList dollar mid dflt)).length),
      mainNterminal (registryList dollar mid dflt) ≤ k →
      k < mainNsymbol (registryList dollar mid dflt) →
      ((sortSymbols (registryList dollar mid dflt)).get ⟨k, hk⟩).typ = .NONTERMINAL) ∧
    (∀ hk : mainNsymbol (registryList dollar mid dflt) <
        (sortSymbols (registryList dollar mid dflt)).length,
      ((sortSymbols (registryList dollar mid dflt)).get
        ⟨mainNsymbol (registryList dollar mid dflt), hk⟩).name = defaultName) ∧
    (∀ (k : Nat) (hk : k < (sortSymbols (registryList dollar mid dflt)).length),
      mainNsymbol (registryList dollar mid dflt) < k →
      ((sortSymbols (registryList dollar mid dflt)).get ⟨k, hk⟩).typ = .MULTITERMINAL) ∧
    (∀ (k : Nat) (hk : k < (sortSymbols (registryList dollar mid dflt)).length),
      ((sortSymbols (registryList dollar mid dflt)).get ⟨k, hk⟩).typ = .TERMINAL →
      k < mainNterminal (registryList dollar mid dflt)) ∧
    (∀ c : symS, firstRuneIsUpper c.name = true → c.typ = symbolNewType c.name →
      c.typ = .TERMINAL) := by
  obtain ⟨hS0len, ⟨ht1pos, ht1t2, ht2le⟩, hbound, hhead, hlast, hG6, hG7, hG8, hG9⟩ :=
    registry_sorted_facts dollar mid dflt hdn hdt hfn hft hmid
      (List.mergeSort (assignIdx 0 (registryList dollar mid dflt)) symLe) rfl
      (List.countP (fun s => decide (symClassOf s ≤ 1))
        (List.mergeSort (assignIdx 0 (registryList dollar mid dflt)) symLe))
      (List.countP (fun s => decide (symClassOf s ≤ 2))
        (List.mergeSort (assignIdx 0 (registryList dollar mid dflt)) symLe)) rfl rfl
  have hSlen : (sortSymbols (registryList dollar mid dflt)).length =
      (List.mergeSort (assignIdx 0 (registryList dollar mid dflt)) symLe).length :=
    assignIdx_length _ 0
  have hSget : ∀ (k : Nat) (hk : k < (sortSymbols (registryList dollar mid dflt)).length)
      (hk2 : k < (List.mergeSort (assignIdx 0 (registryList dollar mid dflt)) symLe).length),
      (sortSymbols (registryList dollar mid dflt)).get ⟨k, hk⟩ =
        { (List.mergeSort (assignIdx 0 (registryList dollar mid dflt)) symLe).get ⟨k, hk2⟩
          with index := (k : Int) } := by
    intro k hk hk2
    have h := assignIdx_get
      (List.mergeSort (assignIdx 0 (registryList dollar mid dflt)) symLe) 0 k hk hk2
    rwa [zero_add] at h
  have hnt : mainNterminal (registryList dollar mid dflt) =
      List.countP (fun s => decide (symClassOf s ≤ 1))
        (List.mergeSort (assignIdx 0 (registryList dollar mid dflt)) symLe) := by
    unfold mainNterminal
    have hq := takeWhile_length_eq (fun s => firstRuneIsUpper s.name)
      ((sortSymbols (registryList dollar mid dflt)).drop 1)
      (List.countP (fun s => decide (symClassOf s ≤ 1))
        (List.mergeSort (assignIdx 0 (registryList dollar mid dflt)) symLe) - 1)
      (by rw [List.length_drop, hSlen, hS0len]; omega)
      (by
        intro m hm hmq
        have hm1 : 1 + m < (sortSymbols (registryList dollar mid dflt)).length := by
          rw [List.length_drop] at hm
          omega
        have hm2 : 1 + m <
            (List.mergeSort (assignIdx 0 (registryList dollar mid dflt)) symLe).length := by
          rw [← hSlen]
          exact hm1
        have hgd : ((sortSymbols (registryList dollar mid dflt)).drop 1).get ⟨m, hm⟩ =
            (sortSymbols (registryList dollar mid dflt)).get ⟨1 + m, hm1⟩ := by
          rw [List.get_eq_getElem, List.get_eq_getElem]
          exact List.getElem_drop _
        rw [hgd, hSget (1 + m) hm1 hm2]
        exact (hG6 (1 + m) hm2 (by omega) (by omega)).2
      )
      (by
        intro hq1
        have ht1' := ht1pos
        have hm1 : 1 + (List.countP (fun s => decide (symClassOf s ≤ 1))
            (List.mergeSort (assignIdx 0 (registryList dollar mid dflt)) symLe) - 1) <
            (sortSymbols (registryList dollar mid dflt)).length := by
          rw [List.length_drop] at hq1
          omega
        have hm2 : 1 + (List.countP (fun s => decide (symClassOf s ≤ 1))
            (List.mergeSort (assignIdx 0 (registryList dollar mid dflt)) symLe) - 1) <
            (List.mergeSort (assignIdx 0 (registryList dollar mid dflt)) symLe).length := by
          rw [← hSlen]
          exact hm1
        have hgd : ((sortSymbols (registryList dollar mid dflt)).drop 1).get
              ⟨List.countP (fun s => decide (symClassOf s ≤ 1))
                (List.mergeSort (assignIdx 0 (registryList dollar mid dflt)) symLe) - 1, hq1⟩ =
            (sortSymbols (registryList dollar mid dflt)).get
              ⟨1 + (List.countP (fun s => decide (symClassOf s ≤ 1))
                (List.mergeSort (assignIdx 0 (registryList dollar mid dflt)) symLe) - 1), hm1⟩ := by
          rw [List.get_eq_getElem, List.get_eq_getElem]
          exact List.getElem_drop _
        rw [hgd, hSget _ hm1 hm2]
        have h7 := (hG7 _ hm2 (by omega) (by omega)).2
        exact h7
      )
    rw [hq]
    omega
  have hlenS : (sortSymbols (registryList dollar mid dflt)).length = mid.length + 2 := by
    rw [hSlen, hS0len]
  have ht2le' : List.countP (fun s => decide (symClassOf s ≤ 2))
      (List.mergeSort (assignIdx 0 (registryList dollar mid dflt)) symLe) ≤ mid.length + 2 := by
    rw [← hS0len]
    exact ht2le
  have hTrail : trailingMulti (sortSymbols (registryList dollar mid dflt)) =
      (mid.length + 2) - List.countP (fun s => decide (symClassOf s ≤ 2))
        (List.mergeSort (assignIdx 0 (registryList dollar mid dflt)) symLe) := by
    unfold trailingMulti
    apply takeWhile_length_eq
    · rw [List.length_reverse, hlenS]
      omega
    · intro m hm hmq
      have hm' : m < mid.length + 2 := by
        have hcopy := hm
        rwa [List.length_reverse, hlenS] at hcopy
      have hpos : (sortSymbols (registryList dollar mid dflt)).length - 1 - m <
          (sortSymbols (registryList dollar mid dflt)).length := by
        rw [hlenS]
        omega
      have hpos2 : (sortSymbols (registryList dollar mid dflt)).length - 1 - m <
          (List.mergeSort (assignIdx 0 (registryList dollar mid dflt)) symLe).length := by
        rw [← hSlen]
        exact hpos
      have hgr : ((sortSymbols (registryList dollar mid dflt)).reverse).get ⟨m, hm⟩ =
          (sortSymbols (registryList dollar mid dflt)).get
            ⟨(sortSymbols (registryList dollar mid dflt)).length - 1 - m, hpos⟩ := by
        rw [List.get_eq_getElem, List.get_eq_getElem]
        exact List.getElem_reverse _
      rw [hgr, hSget _ hpos hpos2]
      have harg : List.countP (fun s => decide (symClassOf s ≤ 2))
          (List.mergeSort (assignIdx 0 (registryList dollar mid dflt)) symLe) ≤
          (sortSymbols (registryList dollar mid dflt)).length - 1 - m := by
        rw [hlenS]
        omega
      have h8 := hG8 _ hpos2 harg
      rw [List.get_eq_getElem] at h8
      simp [h8]
    · intro hq1
      have hq1' : (mid.length + 2) - List.countP (fun s => decide (symClassOf s ≤ 2))
          (List.mergeSort (assignIdx 0 (registryList dollar mid dflt)) symLe) <
          mid.length + 2 := by
        have hcopy := hq1
        rwa [List.length_reverse, hlenS] at hcopy
      have hpos : (sortSymbols (registryList dollar mid dflt)).length - 1 -
          ((mid.length + 2) - List.countP (fun s => decide (symClassOf s ≤ 2))
            (List.mergeSort (assignIdx 0 (registryList dollar mid dflt)) symLe)) <
          (sortSymbols (registryList dollar mid dflt)).length := by
        rw [hlenS]
        omega
      have hpos2 : (sortSymbols (registryList dollar mid dflt)).length - 1 -
          ((mid.length + 2) - List.countP (fun s => decide (symClassOf s ≤ 2))
            (List.mergeSort (assignIdx 0 (registryList dollar mid dflt)) symLe)) <
          (List.mergeSort (assignIdx 0 (registryList dollar mid dflt)) symLe).length := by
        rw [← hSlen]
        exact hpos
      have hgr : ((sortSymbols (registryList dollar mid dflt)).reverse).get
            ⟨(mid.length + 2) - List.countP (fun s => decide (symClassOf s ≤ 2))
              (List.mergeSort (assignIdx 0 (registryList dollar mid dflt)) symLe), hq1⟩ =
          (sortSymbols (registryList dollar mid dflt)).get
            ⟨(sortSymbols (registryList dollar mid dflt)).length - 1 -
              ((mid.length + 2) - List.countP (fun s => decide (symClassOf s ≤ 2))
                (List.mergeSort (assignIdx 0 (registryList dollar mid dflt)) symLe)), hpos⟩ := by
        rw [List.get_eq_getElem, List.get_eq_getElem]
        exact List.getElem_reverse _
      rw [hgr, hSget _ hpos hpos2]
      have hk1 : List.countP (fun s => decide (symClassOf s ≤ 1))
          (List.mergeSort (assignIdx 0 (registryList dollar mid dflt)) symLe) ≤
          (sortSymbols (registryList dollar mid dflt)).length - 1 -
            ((mid.length + 2) - List.countP (fun s => decide (symClassOf s ≤ 2))
              (List.mergeSort (assignIdx 0 (registryList dollar mid dflt)) symLe)) := by
        rw [hlenS]
        omega
      have hk2' : (sortSymbols (registryList dollar mid dflt)).length - 1 -
          ((mid.length + 2) - List.countP (fun s => decide (symClassOf s ≤ 2))
            (List.mergeSort (assignIdx 0 (registryList dollar mid dflt)) symLe)) <
          List.countP (fun s => decide (symClassOf s ≤ 2))
            (List.mergeSort (assignIdx 0 (registryList dollar mid dflt)) symLe) := by
        rw [hlenS]
        omega
      have h7 := (hG7 _ hpos2 hk1 hk2').1
      rw [List.get_eq_getElem] at h7
      simp [h7]
  have hns : mainNsymbol (registryList dollar mid dflt) =
      List.countP (fun s => decide (symClassOf s ≤ 2))
        (List.mergeSort (assignIdx 0 (registryList dollar mid dflt)) symLe) - 1 := by
    unfold mainNsymbol
    rw [hTrail, registryList_length]
    omega
  refine ⟨by rw [hSlen, hS0len], by rw [hnt]; omega, by rw [hnt, hns]; omega,
    by rw [hns, hSlen, hS0len]; omega, ?_, ?_, ?_, ?_, ?_, ?_, ?_, ?_⟩
  · intro k hk
    have hk2 : k < (List.mergeSort (assignIdx 0 (registryList dollar mid dflt)) symLe).length := by
      rw [← hSlen]; exact hk
    rw [hSget k hk hk2]
  · intro hk
    have hk2 : 0 < (List.mergeSort (assignIdx 0 (registryList dollar mid dflt)) symLe).length := by
      rw [← hSlen]; exact hk
    rw [hSget 0 hk hk2, hhead hk2]
    exact hdn
  · intro k hk hklt
    have hk2 : k < (List.mergeSort (assignIdx 0 (registryList dollar mid dflt)) symLe).length := by
      rw [← hSlen]; exact hk
    rw [hnt] at hklt
    rcases Nat.eq_zero_or_pos k with rfl | hkpos
    · right
      rw [hSget 0 hk hk2, hhead hk2]
      exact hdn
    · left
      rw [hSget k hk hk2]
      exact (hG6 k hk2 (by omega) hklt).1
  · intro k hk hk1 hk2'
    have hk2 : k < (List.mergeSort (assignIdx 0 (registryList dollar mid dflt)) symLe).length := by
      rw [← hSlen]; exact hk
    rw [hnt] at hk1
    rw [hns] at hk2'
    rw [hSget k hk hk2]
    exact (hG7 k hk2 hk1 (by omega)).1
  · intro hk
    have hk2 : mainNsymbol (registryList dollar mid dflt) <
        (List.mergeSort (assignIdx 0 (registryList dollar mid dflt)) symLe).length := by
      rw [← hSlen]; exact hk
    rw [hSget _ hk hk2]
    show ((List.mergeSort (assignIdx 0 (registryList dollar mid dflt)) symLe).get
        ⟨mainNsymbol (registryList dollar mid dflt), hk2⟩).name = defaultName
    have hkx : List.countP (fun s => decide (symClassOf s ≤ 2))
        (List.mergeSort (assignIdx 0 (registryList dollar mid dflt)) symLe) - 1 <
        (List.mergeSort (assignIdx 0 (registryList dollar mid dflt)) symLe).length := by
      rw [← hns]; exact hk2
    have hfin : (⟨mainNsymbol (registryList dollar mid dflt), hk2⟩ :
        Fin (List.mergeSort (assignIdx 0 (registryList dollar mid dflt)) symLe).length) =
        ⟨List.countP (fun s => decide (symClassOf s ≤ 2))
          (List.mergeSort (assignIdx 0 (registryList dollar mid dflt)) symLe) - 1, hkx⟩ := by
      apply Fin.ext
      exact hns
    rw [hfin, hlast hkx]
    exact hfn
  · intro k hk hkgt
    have hk2 : k < (List.mergeSort (assignIdx 0 (registryList dollar mid dflt)) symLe).length := by
      rw [← hSlen]; exact hk
    rw [hns] at hkgt
    rw [hSget k hk hk2]
    exact hG8 k hk2 (by omega)
  · intro k hk hterm
    have hk2 : k < (List.mergeSort (assignIdx 0 (registryList dollar mid dflt)) symLe).length := by
      rw [← hSlen]; exact hk
    rw [hSget k hk hk2] at hterm
    rw [hnt]
    exact hG9 k hk2 hterm
  · intro c hup hty
    rw [hty]
    unfold symbolNewType
    rw [if_pos hup]

theorem c7reg_pos : 0 < (sortSymbols (registryList c7dollar c7mid c7dflt)).length := by
  unfold sortSymbols
  rw [assignIdx_length, List.length_mergeSort, assignIdx_length]
  decide

theorem C7_symbol_numbering_witness :
    ((sortSymbols (registryList c7dollar c7mid c7dflt)).get ⟨0, c7reg_pos⟩).name =
      dollarName := by
  have hmidOK : ∀ s ∈ c7mid, midSymbolOK s := by
    intro s hs hmt
    fin_cases hs <;> exact ⟨by decide, by decide⟩
  exact (C7_symbol_numbering c7dollar c7mid c7dflt rfl rfl rfl rfl
    hmidOK).2.2.2.2.2.1 c7reg_pos

end Golemon
